import Mathlib

/-!
Shallow embedding of `src/app/core/api_key_manager.py` (Model-Proxy repository):
multi-key round-robin API-key selection with failure cooldowns, per-request
cycle tracking (`KeyCycleTracker`), and process-wide rotation state.

Conventions of the embedding:
* Python `time.time()` timestamps and `KEY_COOLDOWN_SECONDS` are embedded as
  `Int` values passed explicitly (`now`, `cooldown`); all the code ever does
  with them is compare differences, so integer ticks are faithful.
* Python dicts keyed by strings are embedded as association lists that keep
  at most one binding per key (updates replace in place, as dicts do).
* Python sets of strings are embedded as duplicate-free lists.
* `os.environ` is embedded as an ordered association list `Env` (Python dicts
  iterate in insertion order).
* Python `%` on ints with a positive modulus agrees with `Int.emod` (`%`).
-/

/-- Python dict `failed_keys : {key: failed_at}` of a provider. -/
abbrev FailMap := List (String × Int)

/-- `failed_keys.get(key)`. -/
def fmLookup : FailMap → String → Option Int
  | [], _ => none
  | (k, ft) :: rest, key => if k = key then some ft else fmLookup rest key

/-- `failed_keys[key] = t` (replace in place if present, else append, as dicts do). -/
def fmInsert : FailMap → String → Int → FailMap
  | [], key, t => [(key, t)]
  | (k, ft) :: rest, key, t =>
      if k = key then (k, t) :: rest else (k, ft) :: fmInsert rest key t

/-- `del failed_keys[key]`. -/
def fmErase : FailMap → String → FailMap
  | [], _ => []
  | (k, ft) :: rest, key => if k = key then rest else (k, ft) :: fmErase rest key

/-- Python `set.add` on a set of strings embedded as a duplicate-free list. -/
def setInsert (x : String) (s : List String) : List String :=
  if x ∈ s then s else x :: s

/-- `KeyRotationState`: per-provider rotation state (`last_used_index`,
`failed_keys`), source lines 29-34. -/
structure KeyRotationState where
  last_used_index : Int := -1
  failed_keys : FailMap := []
deriving DecidableEq, Repr

/-- The dataclass defaults: `last_used_index = -1`, `failed_keys = {}`. -/
def initRotationState : KeyRotationState := {}

/-! ### Key parsing (`_parse_provider_keys`, source lines 41-100) -/

/-- `os.environ` as an ordered association list (name, value). -/
abbrev Env := List (String × String)

/-- `os.getenv name` / `os.environ.get(name)` (first binding wins; real
environments bind each name once). -/
def envGet : Env → String → Option String
  | [], _ => none
  | (n, v) :: rest, name => if n = name then some v else envGet rest name

/-- An entry of a provider's `env_var_patterns` list: either a literal
variable name, or a template whose `{INDEX}` placeholder is terminal, as in
the default patterns `PREFIX_API_KEY` and `PREFIX_API_KEY_{INDEX}`. -/
inductive EnvPattern where
  | lit (name : String)
  | indexed (base : String)
deriving DecidableEq, Repr

/-- Numeric value of a digit string (what `int(match.group(1))` computes once
the regex `(\d+)` has matched). -/
def digitsVal (cs : List Char) : Nat :=
  cs.foldl (fun acc c => acc * 10 + (c.toNat - '0'.toNat)) 0

/-- Matching one environment-variable name against `base ++ "{INDEX}"`,
i.e. the compiled regex `^base(\d+)$`: the name must start with `base` and the
remainder must be one or more decimal digits, whose value is the index.
(The regex class `\d` is modelled as ASCII digits.) -/
def matchIndexed (base : String) (name : String) : Option Nat :=
  if base.data.isPrefixOf name.data then
    let rest := name.data.drop base.data.length
    if rest ≠ [] ∧ rest.all Char.isDigit then some (digitsVal rest) else none
  else none

/-- Stable insertion into a list sorted ascending by the `Nat` component
(strictly-smaller test keeps earlier elements first on ties, matching the
stability of Python's `list.sort`). -/
def insSorted (x : Nat × String) : List (Nat × String) → List (Nat × String)
  | [] => [x]
  | y :: ys => if y.1 < x.1 then y :: insSorted x ys else x :: y :: ys

/-- Stable sort ascending by the `Nat` component (`matches.sort(key=index)`). -/
def sortByIdx (l : List (Nat × String)) : List (Nat × String) :=
  l.foldr insSorted []

/-- `_collect_indexed(pattern_with_index)`, source lines 73-88: scan the
environment for names matching the pattern, collect `(index, value)` pairs,
and sort them ascending by index. -/
def collectIndexed (base : String) (env : Env) : List (Nat × String) :=
  sortByIdx (env.filterMap fun nv => (matchIndexed base nv.1).map fun i => (i, nv.2))

/-- `_add_key(value)`, source lines 68-71: append the value unless it is
`None`, empty (falsy), or already seen. `seen` always holds exactly the
elements of `keys`, so membership in the accumulator is the `seen` test. -/
def addKey (ks : List String) (value : Option String) : List String :=
  match value with
  | none => ks
  | some v => if v ≠ "" ∧ v ∉ ks then ks ++ [v] else ks

/-- The pattern loop of `_parse_provider_keys`, source lines 91-98. -/
def parseKeysWithPatterns (patterns : List EnvPattern) (env : Env) : List String :=
  patterns.foldl
    (fun ks pat =>
      match pat with
      | .lit name => addKey ks (envGet env name)
      | .indexed base => (collectIndexed base env).foldl (fun ks iv => addKey ks (some iv.2)) ks)
    []

/-- `provider_name.upper().replace("-", "_")`, source line 65. -/
def envVarBase (provider : String) : String :=
  String.mk (provider.data.map fun c => if c = '-' then '_' else c.toUpper)

/-- The default pattern pair `[PREFIX_API_KEY, PREFIX_API_KEY_{INDEX}]`,
source line 66. -/
def defaultPatterns (provider : String) : List EnvPattern :=
  [.lit (envVarBase provider ++ "_API_KEY"), .indexed (envVarBase provider ++ "_API_KEY_")]

/-- `_parse_provider_keys(provider_name)`, source lines 41-100.

Modelled from the spec: the provider-config registry
(`get_provider_env_var_patterns`, imported from `app.core.provider_config`)
is not under `src/`; it is modelled as supplying no patterns, so the
documented fallback to the default pattern pair applies (source lines 57-66,
spec §4.1). -/
def parse_provider_keys (provider : String) (env : Env) : List String :=
  parseKeysWithPatterns (defaultPatterns provider) env

/-! ### Global selection (`get_api_key`, source lines 290-328) -/

/-- The in-cooldown test applied to one key: there is a failure entry and
`now - fail_time < cooldown` (callers guard on `cooldown > 0` separately,
exactly as the source does). -/
def keyInCooldown (cooldown now : Int) (fk : FailMap) (key : String) : Bool :=
  match fmLookup fk key with
  | none => false
  | some ft => now - ft < cooldown

/-- The `for offset in range(num_keys)` loop of `get_api_key`, source lines
311-325. `remaining` counts the offsets still to try; on acceptance returns
the accepted index and key together with the (possibly purged) failure map. -/
def getApiKeyLoop (cooldown now : Int) (keys : List String) (lastIdx : Int) :
    Nat → Nat → FailMap → Option (Int × String) × FailMap
  | 0, _, fk => (none, fk)
  | remaining + 1, offset, fk =>
      let n : Int := (keys.length : Int)
      let idx := (lastIdx + 1 + (offset : Int)) % n
      let candidate := keys.getD idx.toNat ""
      match fmLookup fk candidate with
      | some ft =>
          if 0 < cooldown then
            if now - ft < cooldown then
              getApiKeyLoop cooldown now keys lastIdx remaining (offset + 1) fk
            else
              (some (idx, candidate), fmErase fk candidate)
          else
            (some (idx, candidate), fk)
      | none => (some (idx, candidate), fk)

/-- `get_api_key(provider)`, source lines 290-328, for an already-parsed key
list and one provider's rotation state. -/
def get_api_key (cooldown now : Int) (keys : List String) (st : KeyRotationState) :
    Option String × KeyRotationState :=
  if keys.isEmpty then (none, st)
  else
    match getApiKeyLoop cooldown now keys st.last_used_index keys.length 0 st.failed_keys with
    | (some (idx, k), fk) => (some k, { last_used_index := idx, failed_keys := fk })
    | (none, fk) => (none, { st with failed_keys := fk })

/-- `mark_key_failed(provider, key)`, source lines 331-345, on one provider's
state: `state.failed_keys[key] = time.time()`. -/
def mark_key_failed (now : Int) (key : String) (st : KeyRotationState) : KeyRotationState :=
  { st with failed_keys := fmInsert st.failed_keys key now }

/-! ### `KeyCycleTracker` (source lines 103-279) -/

/-- The per-request tracker, source lines 116-131.  `keys_tried_this_cycle`
and `keys_attempted` are Python sets, embedded as duplicate-free lists. -/
structure KeyCycleTracker where
  provider : String
  max_cycles : Nat
  current_cycle : Nat := 0
  keys_tried_this_cycle : List String := []
  keys_attempted : List String := []
  all_keys : List String
  key_index : Int
deriving DecidableEq, Repr

/-- `KeyCycleTracker.__init__` given the parsed key list and the provider's
current `last_used_index` (source lines 125-131). -/
def KeyCycleTracker.start (provider : String) (maxCycles : Nat) (allKeys : List String)
    (lastUsed : Int) : KeyCycleTracker :=
  { provider := provider, max_cycles := maxCycles, all_keys := allKeys, key_index := lastUsed }

/-- `_reset_cycle`, source lines 196-211: bump the cycle counter and clear the
per-cycle set; the global `failed_keys` are deliberately untouched. -/
def KeyCycleTracker.reset_cycle (t : KeyCycleTracker) : KeyCycleTracker :=
  { t with current_cycle := t.current_cycle + 1, keys_tried_this_cycle := [] }

/-- `_should_reset_cycle`, source lines 192-194. -/
def KeyCycleTracker.should_reset_cycle (t : KeyCycleTracker) : Bool :=
  t.all_keys.length ≤ t.keys_tried_this_cycle.length

/-- The `for _ in range(num_keys)` probe loop of `get_next_key`, source lines
160-183.  Each probe advances `key_index`, skips candidates already tried this
cycle, and skips candidates in unexpired cooldown unless this tracker has
already attempted them; the first accepted candidate is returned together with
the updated tracker. -/
def KeyCycleTracker.probeLoop (cooldown now : Int) (fk : FailMap) :
    Nat → KeyCycleTracker → Option String × KeyCycleTracker
  | 0, t => (none, t)
  | remaining + 1, t =>
      let n : Int := (t.all_keys.length : Int)
      let t' := { t with key_index := (t.key_index + 1) % n }
      let candidate := t'.all_keys.getD t'.key_index.toNat ""
      if candidate ∈ t'.keys_tried_this_cycle then
        KeyCycleTracker.probeLoop cooldown now fk remaining t'
      else if candidate ∉ t'.keys_attempted ∧ 0 < cooldown ∧
          keyInCooldown cooldown now fk candidate = true then
        KeyCycleTracker.probeLoop cooldown now fk remaining t'
      else
        (some candidate,
          { t' with
            keys_tried_this_cycle := setInsert candidate t'.keys_tried_this_cycle,
            keys_attempted := setInsert candidate t'.keys_attempted })

/-- `get_next_key`, source lines 133-190, with the self-recursion (taken after
a cycle reset) unrolled on an explicit counter.  Each recursive call strictly
increments `current_cycle`, and the call returns `none` as soon as
`current_cycle ≥ max_cycles`, so the recursion depth from a tracker `t` is at
most `t.max_cycles - t.current_cycle`; the wrapper `get_next_key` below passes
one more than that bound, hence the `0` case is never reached from it. -/
def KeyCycleTracker.getNextKeyAux (cooldown now : Int) :
    Nat → KeyCycleTracker → KeyRotationState → Option String × KeyCycleTracker × KeyRotationState
  | 0, t, st => (none, t, st)
  | depth + 1, t, st =>
      if t.all_keys.isEmpty then (none, t, st)
      else if t.max_cycles ≤ t.current_cycle then (none, t, st)
      else
        match KeyCycleTracker.probeLoop cooldown now st.failed_keys t.all_keys.length t with
        | (some k, t') => (some k, t', { st with last_used_index := t'.key_index })
        | (none, t') =>
            if t'.should_reset_cycle then
              KeyCycleTracker.getNextKeyAux cooldown now depth t'.reset_cycle st
            else (none, t', st)

/-- `get_next_key`, source lines 133-190: returns the chosen key (if any), the
mutated tracker, and the provider state with `last_used_index` updated on
success. -/
def KeyCycleTracker.get_next_key (cooldown now : Int) (t : KeyCycleTracker)
    (st : KeyRotationState) : Option String × KeyCycleTracker × KeyRotationState :=
  KeyCycleTracker.getNextKeyAux cooldown now (t.max_cycles - t.current_cycle + 1) t st

/-- `all_keys_in_cooldown`, source lines 213-239. -/
def KeyCycleTracker.all_keys_in_cooldown (cooldown now : Int) (t : KeyCycleTracker)
    (st : KeyRotationState) : Bool :=
  if t.all_keys.isEmpty then true
  else if cooldown ≤ 0 then false
  else t.all_keys.all fun key => keyInCooldown cooldown now st.failed_keys key

/-- `KeyCycleTracker.mark_failed(key)`, source lines 241-252: delegates to the
module-level `mark_key_failed` on the provider's state; the tracker itself is
unchanged. -/
def KeyCycleTracker.mark_failed (now : Int) (key : String) (st : KeyRotationState) :
    KeyRotationState :=
  mark_key_failed now key st

/-- `exhausted`, source lines 254-269. -/
def KeyCycleTracker.exhausted (t : KeyCycleTracker) : Bool :=
  if t.all_keys.isEmpty then true
  else if t.max_cycles ≤ t.current_cycle then true
  else if t.should_reset_cycle ∧ t.max_cycles ≤ t.current_cycle + 1 then true
  else false

/-! ### Process-wide rotation state (`_rotation_state`, source lines 37-38)
and the module-level API that consults it. -/

/-- `_rotation_state`, a `defaultdict(KeyRotationState)` keyed by provider. -/
abbrev GlobalState := List (String × KeyRotationState)

/-- At process start the rotation store is empty. -/
def initGlobalState : GlobalState := []

/-- `_rotation_state[provider]` as a read: a missing provider reads as the
default `KeyRotationState` (the `defaultdict` inserts the default on first
access; that insertion is observable only through later reads, which this
lookup reproduces). -/
def gsGet : GlobalState → String → KeyRotationState
  | [], _ => initRotationState
  | (p, s) :: rest, provider => if p = provider then s else gsGet rest provider

/-- `provider in _rotation_state`. -/
def gsContains : GlobalState → String → Bool
  | [], _ => false
  | (p, _) :: rest, provider => p = provider || gsContains rest provider

/-- Store a provider's state (replace in place if present, else append). -/
def gsSet : GlobalState → String → KeyRotationState → GlobalState
  | [], provider, s => [(provider, s)]
  | (p, s') :: rest, provider, s =>
      if p = provider then (p, s) :: rest else (p, s') :: gsSet rest provider s

/-- Module-level `mark_key_failed(provider, key)`, source lines 331-345. -/
def markKeyFailedG (provider key : String) (now : Int) (g : GlobalState) : GlobalState :=
  gsSet g provider (mark_key_failed now key (gsGet g provider))

/-- Module-level `get_api_key(provider)`, source lines 290-328. -/
def getApiKeyG (cooldown now : Int) (provider : String) (env : Env) (g : GlobalState) :
    Option String × GlobalState :=
  let keys := parse_provider_keys provider env
  if keys.isEmpty then (none, g)
  else
    let r := get_api_key cooldown now keys (gsGet g provider)
    (r.1, gsSet g provider r.2)

/-- `get_available_keys(provider)`, source lines 282-287: returns the parsed
keys; the rotation store is not consulted. -/
def get_available_keys (provider : String) (env : Env) (_g : GlobalState) : List String :=
  parse_provider_keys provider env

/-- `get_all_keys(provider)`, source lines 348-358: identical to
`get_available_keys`. -/
def get_all_keys (provider : String) (env : Env) (_g : GlobalState) : List String :=
  parse_provider_keys provider env

/-- `reset_failed_keys(provider)` / `reset_failed_keys(None)`, source lines
361-374. -/
def reset_failed_keys (provider : Option String) (g : GlobalState) : GlobalState :=
  match provider with
  | some p =>
      if gsContains g p then gsSet g p { gsGet g p with failed_keys := [] } else g
  | none => g.map fun ps => (ps.1, { ps.2 with failed_keys := [] })

/-- `reset_rotation_state(provider)` / `reset_rotation_state(None)`, source
lines 377-390. -/
def reset_rotation_state (provider : Option String) (g : GlobalState) : GlobalState :=
  match provider with
  | some p => if gsContains g p then gsSet g p initRotationState else g
  | none => []

/-- `KeyCycleTracker(provider, max_cycles)` built against the process
environment and rotation store, source lines 116-131. -/
def mkTracker (provider : String) (maxCycles : Nat) (env : Env) (g : GlobalState) :
    KeyCycleTracker :=
  KeyCycleTracker.start provider maxCycles (parse_provider_keys provider env)
    (gsGet g provider).last_used_index

/-! ### Specification-side definitions and run semantics used by the theorems -/

/-- Deduplication by value keeping the first occurrence, starting from an
accumulator (spec §4.1: "Duplicates across patterns are deduplicated by value,
keeping the first occurrence"). -/
def dedupAppend (acc : List String) (l : List String) : List String :=
  l.foldl (fun a x => if x ∈ a then a else a ++ [x]) acc

/-- The key-parser contract as the spec words it (§4.1, default patterns):
the literal variable's value first, then the indexed matches sorted ascending
by index; empty strings treated as unset; deduplicated keeping the first
occurrence.  This definition follows the spec's words and is compared with
`parse_provider_keys`, which follows the source. -/
def specParse (provider : String) (env : Env) : List String :=
  let base := envVarBase provider
  let litVals := (envGet env (base ++ "_API_KEY")).toList
  let idxVals := (collectIndexed (base ++ "_API_KEY_") env).map Prod.snd
  dedupAppend [] (((litVals ++ idxVals).filter fun v => v ≠ ""))

/-- The failure map with every expired entry removed (an entry is unexpired
iff `cooldown > 0` and `now - failed_at < cooldown`; `cooldown ≤ 0` makes
every entry behave as expired). -/
def purgeExpired (cooldown now : Int) (fk : FailMap) : FailMap :=
  fk.filter fun e => decide (0 < cooldown) && decide (now - e.2 < cooldown)

/-- `failed_keys` has at most one entry per key, as a Python dict always
does. -/
def fmKeysNodup (fk : FailMap) : Prop :=
  (fk.map Prod.fst).Nodup

/-- Iterated module-level `get_api_key` calls on one provider, collecting the
returned values. -/
def getApiKeyRun (cooldown now : Int) (keys : List String) :
    Nat → KeyRotationState → List (Option String) × KeyRotationState
  | 0, st => ([], st)
  | n + 1, st =>
      let r := get_api_key cooldown now keys st
      let rest := getApiKeyRun cooldown now keys n r.2
      (r.1 :: rest.1, rest.2)

/-- One operation of a single-request interleaving on one tracker: a
`get_next_key()` call or a `mark_failed(key)` call, each at its own clock
reading. -/
inductive TrackerOp where
  | getKey (now : Int)
  | markFail (now : Int) (key : String)
deriving DecidableEq, Repr

/-- Execute one operation, returning the value produced by a `getKey` call. -/
def stepOp (cooldown : Int) (t : KeyCycleTracker) (st : KeyRotationState) :
    TrackerOp → Option String × KeyCycleTracker × KeyRotationState
  | .getKey now => KeyCycleTracker.get_next_key cooldown now t st
  | .markFail now key => (none, t, KeyCycleTracker.mark_failed now key st)

/-- Execute a list of operations in order. -/
def runOps (cooldown : Int) : List TrackerOp → KeyCycleTracker → KeyRotationState →
    KeyCycleTracker × KeyRotationState
  | [], t, st => (t, st)
  | op :: rest, t, st =>
      let r := stepOp cooldown t st op
      runOps cooldown rest r.2.1 r.2.2

/-- Number of operations in the list that are `get_next_key()` calls returning
a key ("successful" calls). -/
def numSuccesses (cooldown : Int) : List TrackerOp → KeyCycleTracker → KeyRotationState → Nat
  | [], _, _ => 0
  | op :: rest, t, st =>
      let r := stepOp cooldown t st op
      (if r.1.isSome then 1 else 0) + numSuccesses cooldown rest r.2.1 r.2.2

/-- Execute a list of operations in order, also collecting the value produced
by each operation (`mark_failed` steps contribute `none`). -/
def runTrace (cooldown : Int) : List TrackerOp → KeyCycleTracker → KeyRotationState →
    List (Option String) × KeyCycleTracker × KeyRotationState
  | [], t, st => ([], t, st)
  | op :: rest, t, st =>
      let r := stepOp cooldown t st op
      let rs := runTrace cooldown rest r.2.1 r.2.2
      (r.1 :: rs.1, rs.2)

/-- Progress measure of a tracker: completed sweeps weighted by the key count
plus the keys already tried in the current sweep.  Every successful
`get_next_key()` call increases it by exactly one. -/
def trackerPot (t : KeyCycleTracker) : Nat :=
  t.current_cycle * t.all_keys.length + t.keys_tried_this_cycle.length

/-- Structural facts true of every tracker the constructor can reach: the
per-cycle set holds distinct keys drawn from the parsed list, and the cycle
counter never passes `max_cycles`. -/
def TrackerInv (t : KeyCycleTracker) : Prop :=
  t.keys_tried_this_cycle ⊆ t.all_keys ∧ t.keys_tried_this_cycle.Nodup ∧
    t.current_cycle ≤ t.max_cycles

/-! ### Lemmas about the container embeddings -/

theorem mem_setInsert {x y : String} {s : List String} :
    y ∈ setInsert x s ↔ y = x ∨ y ∈ s := by
  unfold setInsert
  split
  · rename_i h
    constructor
    · exact Or.inr
    · rintro (rfl | hy)
      · exact h
      · exact hy
  · simp [List.mem_cons]

theorem setInsert_of_not_mem {x : String} {s : List String} (h : x ∉ s) :
    setInsert x s = x :: s := by
  unfold setInsert
  rw [if_neg h]

theorem setInsert_nodup {x : String} {s : List String} (h : s.Nodup) :
    (setInsert x s).Nodup := by
  unfold setInsert
  split
  · exact h
  · rename_i hx
    exact List.nodup_cons.mpr ⟨hx, h⟩

theorem nodup_subset_length {l1 l2 : List String} (h1 : l1.Nodup) (h2 : l1 ⊆ l2) :
    l1.length ≤ l2.length := by
  calc l1.length = l1.toFinset.card := (List.toFinset_card_of_nodup h1).symm
    _ ≤ l2.toFinset.card := Finset.card_le_card fun x hx => by
        simp only [List.mem_toFinset] at *
        exact h2 hx
    _ ≤ l2.length := List.toFinset_card_le l2

theorem nodup_swept_mem {l1 l2 : List String} (h1 : l1.Nodup) (h2 : l1 ⊆ l2)
    (hlen : l2.length ≤ l1.length) : ∀ x ∈ l2, x ∈ l1 := by
  intro x hx
  have hsub : l1.toFinset ⊆ l2.toFinset := fun y hy => by
    simp only [List.mem_toFinset] at *
    exact h2 hy
  have hcard : l2.toFinset.card ≤ l1.toFinset.card := by
    calc l2.toFinset.card ≤ l2.length := List.toFinset_card_le l2
      _ ≤ l1.length := hlen
      _ = l1.toFinset.card := (List.toFinset_card_of_nodup h1).symm
  have heq := Finset.eq_of_subset_of_card_le hsub hcard
  have : x ∈ l1.toFinset := heq ▸ List.mem_toFinset.mpr hx
  exact List.mem_toFinset.mp this

theorem fmLookup_mem {fk : FailMap} {k : String} {ft : Int}
    (h : fmLookup fk k = some ft) : (k, ft) ∈ fk := by
  induction fk with
  | nil => simp [fmLookup] at h
  | cons e rest ih =>
    obtain ⟨k', ft'⟩ := e
    by_cases hk : k' = k
    · subst hk
      simp only [fmLookup, if_pos rfl] at h
      injection h with h
      subst h
      exact List.mem_cons_self _ _
    · simp only [fmLookup, if_neg hk] at h
      exact List.mem_cons_of_mem _ (ih h)

theorem fmErase_subset (fk : FailMap) (key : String) : ∀ e ∈ fmErase fk key, e ∈ fk := by
  induction fk with
  | nil => intro e he; simp [fmErase] at he
  | cons e0 rest ih =>
    obtain ⟨k', ft'⟩ := e0
    intro e he
    by_cases hk : k' = key
    · simp only [fmErase, if_pos hk] at he
      exact List.mem_cons_of_mem _ he
    · simp only [fmErase, if_neg hk] at he
      rcases List.mem_cons.mp he with rfl | h2
      · exact List.mem_cons_self _ _
      · exact List.mem_cons_of_mem _ (ih e h2)

theorem fmLookup_fmInsert (fk : FailMap) (k : String) (t : Int) (k' : String) :
    fmLookup (fmInsert fk k t) k' = if k = k' then some t else fmLookup fk k' := by
  induction fk with
  | nil => simp [fmInsert, fmLookup]
  | cons e rest ih =>
    obtain ⟨k1, t1⟩ := e
    by_cases h1 : k1 = k
    · subst h1
      simp only [fmInsert, if_pos rfl, fmLookup]
      by_cases h2 : k1 = k'
      · simp [h2]
      · simp [h2]
    · simp only [fmInsert, if_neg h1, fmLookup]
      by_cases h2 : k1 = k'
      · subst h2
        have : ¬k = k1 := fun h => h1 h.symm
        simp [this]
      · simp [h2, ih]

/-! ### Structural lemmas about the probe loop of `get_next_key` -/

theorem probeLoop_fields (cooldown now : Int) (fk : FailMap) (m : Nat) :
    ∀ t : KeyCycleTracker,
      (KeyCycleTracker.probeLoop cooldown now fk m t).2.provider = t.provider ∧
      (KeyCycleTracker.probeLoop cooldown now fk m t).2.max_cycles = t.max_cycles ∧
      (KeyCycleTracker.probeLoop cooldown now fk m t).2.current_cycle = t.current_cycle ∧
      (KeyCycleTracker.probeLoop cooldown now fk m t).2.all_keys = t.all_keys := by
  induction m with
  | zero => intro t; simp [KeyCycleTracker.probeLoop]
  | succ m ih =>
    intro t
    simp only [KeyCycleTracker.probeLoop]
    split
    · simpa using ih _
    · split
      · simpa using ih _
      · simp

theorem probeLoop_none (cooldown now : Int) (fk : FailMap) (m : Nat) :
    ∀ t : KeyCycleTracker,
      (KeyCycleTracker.probeLoop cooldown now fk m t).1 = none →
      (KeyCycleTracker.probeLoop cooldown now fk m t).2.keys_tried_this_cycle =
          t.keys_tried_this_cycle ∧
      (KeyCycleTracker.probeLoop cooldown now fk m t).2.keys_attempted = t.keys_attempted := by
  induction m with
  | zero => intro t _; simp [KeyCycleTracker.probeLoop]
  | succ m ih =>
    intro t h
    simp only [KeyCycleTracker.probeLoop] at h ⊢
    split at h
    · rename_i hmem
      rw [if_pos hmem]
      simpa using ih _ h
    · rename_i hmem
      split at h
      · rename_i hcool
        rw [if_neg hmem, if_pos hcool]
        simpa using ih _ h
      · simp at h

theorem probeLoop_some (cooldown now : Int) (fk : FailMap) (m : Nat) :
    ∀ (t t' : KeyCycleTracker) (k : String),
      KeyCycleTracker.probeLoop cooldown now fk m t = (some k, t') →
      k ∉ t.keys_tried_this_cycle ∧
      t'.keys_tried_this_cycle = k :: t.keys_tried_this_cycle ∧
      t'.keys_attempted = setInsert k t.keys_attempted ∧
      (0 < t.all_keys.length → k ∈ t.all_keys) := by
  induction m with
  | zero => intro t t' k h; simp [KeyCycleTracker.probeLoop] at h
  | succ m ih =>
    intro t t' k h
    simp only [KeyCycleTracker.probeLoop] at h
    split at h
    · simpa using ih _ _ _ h
    · split at h
      · simpa using ih _ _ _ h
      · rename_i hmem hskip
        rw [Prod.mk.injEq] at h
        obtain ⟨hk, ht'⟩ := h
        injection hk with hk
        subst hk
        subst ht'
        refine ⟨hmem, ?_, rfl, ?_⟩
        · simpa using setInsert_of_not_mem hmem
        · intro hpos
          have hn : (0 : Int) < (t.all_keys.length : Int) := by exact_mod_cast hpos
          have h0 : 0 ≤ (t.key_index + 1) % (t.all_keys.length : Int) :=
            Int.emod_nonneg _ (by omega)
          have h1 : (t.key_index + 1) % (t.all_keys.length : Int) < (t.all_keys.length : Int) :=
            Int.emod_lt_of_pos _ hn
          have hlt : ((t.key_index + 1) % (t.all_keys.length : Int)).toNat < t.all_keys.length := by
            omega
          rw [List.getD_eq_getElem t.all_keys "" hlt]
          exact List.getElem_mem hlt

/-! ### Structural lemmas about `get_next_key` -/

theorem getNextKeyAux_fields (cooldown now : Int) (depth : Nat) :
    ∀ (t : KeyCycleTracker) (st : KeyRotationState),
      (KeyCycleTracker.getNextKeyAux cooldown now depth t st).2.1.provider = t.provider ∧
      (KeyCycleTracker.getNextKeyAux cooldown now depth t st).2.1.max_cycles = t.max_cycles ∧
      (KeyCycleTracker.getNextKeyAux cooldown now depth t st).2.1.all_keys = t.all_keys := by
  induction depth with
  | zero => intro t st; simp [KeyCycleTracker.getNextKeyAux]
  | succ depth ih =>
    intro t st
    simp only [KeyCycleTracker.getNextKeyAux]
    split
    · simp
    · split
      · simp
      · split
        · rename_i k t' heq
          have hF := probeLoop_fields cooldown now st.failed_keys t.all_keys.length t
          rw [heq] at hF
          exact ⟨hF.1, hF.2.1, hF.2.2.2⟩
        · rename_i t' heq
          have hF := probeLoop_fields cooldown now st.failed_keys t.all_keys.length t
          rw [heq] at hF
          have hp : t'.provider = t.provider := hF.1
          have hm : t'.max_cycles = t.max_cycles := hF.2.1
          have ha : t'.all_keys = t.all_keys := hF.2.2.2
          split
          · obtain ⟨hp1, hp2, hp3⟩ := ih t'.reset_cycle st
            have e1 : t'.reset_cycle.provider = t'.provider := rfl
            have e2 : t'.reset_cycle.max_cycles = t'.max_cycles := rfl
            have e3 : t'.reset_cycle.all_keys = t'.all_keys := rfl
            rw [hp1, hp2, hp3, e1, e2, e3, hp, hm, ha]
            exact ⟨rfl, rfl, rfl⟩
          · exact ⟨hp, hm, ha⟩

theorem getNextKeyAux_failed (cooldown now : Int) (depth : Nat) :
    ∀ (t : KeyCycleTracker) (st : KeyRotationState),
      (KeyCycleTracker.getNextKeyAux cooldown now depth t st).2.2.failed_keys =
        st.failed_keys := by
  induction depth with
  | zero => intro t st; simp [KeyCycleTracker.getNextKeyAux]
  | succ depth ih =>
    intro t st
    simp only [KeyCycleTracker.getNextKeyAux]
    split
    · simp
    · split
      · simp
      · split
        · simp
        · split
          · exact ih _ st
          · simp

theorem getNextKeyAux_mono (cooldown now : Int) (depth : Nat) :
    ∀ (t : KeyCycleTracker) (st : KeyRotationState),
      t.current_cycle ≤
          (KeyCycleTracker.getNextKeyAux cooldown now depth t st).2.1.current_cycle ∧
      ((KeyCycleTracker.getNextKeyAux cooldown now depth t st).2.1.current_cycle =
            t.current_cycle →
        t.keys_tried_this_cycle ⊆
          (KeyCycleTracker.getNextKeyAux cooldown now depth t st).2.1.keys_tried_this_cycle) := by
  induction depth with
  | zero => intro t st; exact ⟨le_refl _, fun _ => List.Subset.refl _⟩
  | succ depth ih =>
    intro t st
    simp only [KeyCycleTracker.getNextKeyAux]
    split
    · exact ⟨le_refl _, fun _ => List.Subset.refl _⟩
    · split
      · exact ⟨le_refl _, fun _ => List.Subset.refl _⟩
      · split
        · rename_i k t' heq
          obtain ⟨hns, htr, -, -⟩ :=
            probeLoop_some cooldown now st.failed_keys t.all_keys.length t t' k heq
          have hF := probeLoop_fields cooldown now st.failed_keys t.all_keys.length t
          rw [heq] at hF
          have hc : t'.current_cycle = t.current_cycle := hF.2.2.1
          refine ⟨le_of_eq hc.symm, fun _ => ?_⟩
          rw [htr]
          exact List.subset_cons_self _ _
        · rename_i t' heq
          have hF := probeLoop_fields cooldown now st.failed_keys t.all_keys.length t
          rw [heq] at hF
          have hc : t'.current_cycle = t.current_cycle := hF.2.2.1
          have hN := probeLoop_none cooldown now st.failed_keys t.all_keys.length t
          rw [heq] at hN
          have hN' := hN rfl
          have htr : t'.keys_tried_this_cycle = t.keys_tried_this_cycle := hN'.1
          split
          · obtain ⟨hm1, -⟩ := ih t'.reset_cycle st
            have hrc : t'.reset_cycle.current_cycle = t'.current_cycle + 1 := rfl
            constructor
            · omega
            · intro habs
              omega
          · refine ⟨le_of_eq hc.symm, fun _ => ?_⟩
            rw [htr]
            exact List.Subset.refl _

theorem getNextKeyAux_some (cooldown now : Int) (depth : Nat) :
    ∀ (t : KeyCycleTracker) (st : KeyRotationState) (k : String) (t' : KeyCycleTracker)
      (st' : KeyRotationState),
      KeyCycleTracker.getNextKeyAux cooldown now depth t st = (some k, t', st') →
      k ∈ t'.keys_tried_this_cycle ∧ t.current_cycle ≤ t'.current_cycle ∧
        (t'.current_cycle = t.current_cycle → k ∉ t.keys_tried_this_cycle) := by
  induction depth with
  | zero => intro t st k t' st' h; simp [KeyCycleTracker.getNextKeyAux] at h
  | succ depth ih =>
    intro t st k t' st' h
    simp only [KeyCycleTracker.getNextKeyAux] at h
    split at h
    · simp at h
    · split at h
      · simp at h
      · split at h
        · rename_i k0 t0 heq
          rw [Prod.mk.injEq] at h
          obtain ⟨hk, h2⟩ := h
          rw [Prod.mk.injEq] at h2
          obtain ⟨ht, -⟩ := h2
          injection hk with hk
          subst ht
          obtain ⟨hns, htr, -, -⟩ :=
            probeLoop_some cooldown now st.failed_keys t.all_keys.length t t0 k0 heq
          have hF := probeLoop_fields cooldown now st.failed_keys t.all_keys.length t
          rw [heq] at hF
          have hc : t0.current_cycle = t.current_cycle := hF.2.2.1
          rw [← hk]
          refine ⟨?_, le_of_eq hc.symm, fun _ => hns⟩
          rw [htr]
          exact List.mem_cons_self _ _
        · rename_i t0 heq
          have hF := probeLoop_fields cooldown now st.failed_keys t.all_keys.length t
          rw [heq] at hF
          have hc : t0.current_cycle = t.current_cycle := hF.2.2.1
          split at h
          · obtain ⟨h1, h2, -⟩ := ih _ _ _ _ _ h
            have hrc : t0.reset_cycle.current_cycle = t0.current_cycle + 1 := rfl
            refine ⟨h1, by omega, fun habs => absurd habs (by omega)⟩
          · simp at h

theorem getNextKeyAux_pot (cooldown now : Int) (depth : Nat) :
    ∀ (t : KeyCycleTracker) (st : KeyRotationState),
      0 < t.all_keys.length → TrackerInv t →
      TrackerInv (KeyCycleTracker.getNextKeyAux cooldown now depth t st).2.1 ∧
      trackerPot (KeyCycleTracker.getNextKeyAux cooldown now depth t st).2.1 =
        trackerPot t +
          (if (KeyCycleTracker.getNextKeyAux cooldown now depth t st).1.isSome then 1 else 0) := by
  induction depth with
  | zero => intro t st _ hinv; simp [KeyCycleTracker.getNextKeyAux, hinv]
  | succ depth ih =>
    intro t st hpos hinv
    simp only [KeyCycleTracker.getNextKeyAux]
    split
    · rename_i he
      rw [List.isEmpty_iff] at he
      rw [he] at hpos
      simp at hpos
    · split
      · exact ⟨hinv, by simp⟩
      · split
        · rename_i k t0 heq
          obtain ⟨hns, htr0, -, hmem⟩ :=
            probeLoop_some cooldown now st.failed_keys t.all_keys.length t t0 k heq
          have htr : t0.keys_tried_this_cycle = k :: t.keys_tried_this_cycle := htr0
          have hF := probeLoop_fields cooldown now st.failed_keys t.all_keys.length t
          rw [heq] at hF
          have hc : t0.current_cycle = t.current_cycle := hF.2.2.1
          have hm : t0.max_cycles = t.max_cycles := hF.2.1
          have ha : t0.all_keys = t.all_keys := hF.2.2.2
          obtain ⟨hsub, hnd, hcy⟩ := hinv
          constructor
          · refine ⟨?_, ?_, ?_⟩
            · rw [htr, ha]
              exact List.cons_subset.mpr ⟨hmem hpos, hsub⟩
            · rw [htr]
              exact List.nodup_cons.mpr ⟨hns, hnd⟩
            · rw [hc, hm]
              exact hcy
          · simp only [trackerPot, htr, hc, hm, ha, List.length_cons, Option.isSome_some,
              if_true]
            omega
        · rename_i t0 heq
          have hF := probeLoop_fields cooldown now st.failed_keys t.all_keys.length t
          rw [heq] at hF
          have hc : t0.current_cycle = t.current_cycle := hF.2.2.1
          have hm : t0.max_cycles = t.max_cycles := hF.2.1
          have ha : t0.all_keys = t.all_keys := hF.2.2.2
          have hN := probeLoop_none cooldown now st.failed_keys t.all_keys.length t
          rw [heq] at hN
          have htr : t0.keys_tried_this_cycle = t.keys_tried_this_cycle := (hN rfl).1
          obtain ⟨hsub, hnd, hcy⟩ := hinv
          split
          · rename_i hsw
            simp only [KeyCycleTracker.should_reset_cycle, decide_eq_true_eq, htr, ha] at hsw
            have hlen : t.keys_tried_this_cycle.length ≤ t.all_keys.length :=
              nodup_subset_length hnd hsub
            have hR : TrackerInv t0.reset_cycle := by
              refine ⟨List.nil_subset _, List.nodup_nil, ?_⟩
              have : t0.reset_cycle.current_cycle = t.current_cycle + 1 := by
                simp [KeyCycleTracker.reset_cycle, hc]
              rw [this]
              have : t0.reset_cycle.max_cycles = t.max_cycles := hm
              rw [this]
              omega
            have hRpos : 0 < t0.reset_cycle.all_keys.length := by
              have : t0.reset_cycle.all_keys = t.all_keys := ha
              rw [this]
              exact hpos
            obtain ⟨hI, hP⟩ := ih t0.reset_cycle st hRpos hR
            refine ⟨hI, ?_⟩
            rw [hP]
            have hpotR : trackerPot t0.reset_cycle = (t.current_cycle + 1) * t.all_keys.length := by
              simp [trackerPot, KeyCycleTracker.reset_cycle, hc, ha]
            have hpott : trackerPot t = t.current_cycle * t.all_keys.length +
                t.keys_tried_this_cycle.length := rfl
            rw [hpotR, hpott]
            have : t.keys_tried_this_cycle.length = t.all_keys.length := le_antisymm hlen hsw
            rw [this, Nat.succ_mul]
          · constructor
            · refine ⟨?_, ?_, ?_⟩
              · rw [htr, ha]; exact hsub
              · rw [htr]; exact hnd
              · rw [hc, hm]; exact hcy
            · simp [trackerPot, htr, hc, ha]

theorem probeLoop_all_tried (cooldown now : Int) (fk : FailMap) :
    ∀ (m : Nat) (t : KeyCycleTracker), 0 < t.all_keys.length →
      (∀ k ∈ t.all_keys, k ∈ t.keys_tried_this_cycle) →
      (KeyCycleTracker.probeLoop cooldown now fk m t).1 = none := by
  intro m
  induction m with
  | zero => intro t _ _; simp [KeyCycleTracker.probeLoop]
  | succ m ih =>
    intro t hpos hall
    simp only [KeyCycleTracker.probeLoop]
    have hn : (0 : Int) < (t.all_keys.length : Int) := by exact_mod_cast hpos
    have h0 : 0 ≤ (t.key_index + 1) % (t.all_keys.length : Int) := Int.emod_nonneg _ (by omega)
    have h1 : (t.key_index + 1) % (t.all_keys.length : Int) < (t.all_keys.length : Int) :=
      Int.emod_lt_of_pos _ hn
    have hlt : ((t.key_index + 1) % (t.all_keys.length : Int)).toNat < t.all_keys.length := by
      omega
    have hmem : t.all_keys.getD ((t.key_index + 1) % (t.all_keys.length : Int)).toNat "" ∈
        t.all_keys := by
      rw [List.getD_eq_getElem t.all_keys "" hlt]
      exact List.getElem_mem hlt
    rw [if_pos (hall _ hmem)]
    exact ih _ hpos hall

theorem runOps_mono (cooldown : Int) (ops : List TrackerOp) :
    ∀ (t : KeyCycleTracker) (st : KeyRotationState),
      t.current_cycle ≤ (runOps cooldown ops t st).1.current_cycle ∧
      ((runOps cooldown ops t st).1.current_cycle = t.current_cycle →
        t.keys_tried_this_cycle ⊆ (runOps cooldown ops t st).1.keys_tried_this_cycle) := by
  induction ops with
  | nil => intro t st; exact ⟨le_refl _, fun _ => List.Subset.refl _⟩
  | cons op rest ih =>
    intro t st
    cases op with
    | getKey now =>
      simp only [runOps, stepOp, KeyCycleTracker.get_next_key]
      obtain ⟨h1, h2⟩ :=
        getNextKeyAux_mono cooldown now (t.max_cycles - t.current_cycle + 1) t st
      obtain ⟨h3, h4⟩ := ih
        (KeyCycleTracker.getNextKeyAux cooldown now (t.max_cycles - t.current_cycle + 1) t st).2.1
        (KeyCycleTracker.getNextKeyAux cooldown now (t.max_cycles - t.current_cycle + 1) t st).2.2
      constructor
      · omega
      · intro hfin
        exact (h2 (by omega)).trans (h4 (by omega))
    | markFail now key =>
      simp only [runOps, stepOp]
      exact ih t _

theorem runOps_pot (cooldown : Int) (ops : List TrackerOp) :
    ∀ (t : KeyCycleTracker) (st : KeyRotationState),
      0 < t.all_keys.length → TrackerInv t →
      TrackerInv (runOps cooldown ops t st).1 ∧
      (runOps cooldown ops t st).1.all_keys = t.all_keys ∧
      (runOps cooldown ops t st).1.max_cycles = t.max_cycles ∧
      trackerPot (runOps cooldown ops t st).1 =
        trackerPot t + numSuccesses cooldown ops t st := by
  induction ops with
  | nil => intro t st _ hinv; exact ⟨hinv, rfl, rfl, by simp [runOps, numSuccesses]⟩
  | cons op rest ih =>
    intro t st hpos hinv
    cases op with
    | getKey now =>
      simp only [runOps, stepOp, KeyCycleTracker.get_next_key, numSuccesses]
      obtain ⟨hI, hP⟩ :=
        getNextKeyAux_pot cooldown now (t.max_cycles - t.current_cycle + 1) t st hpos hinv
      obtain ⟨hf1, hf2, hf3⟩ :=
        getNextKeyAux_fields cooldown now (t.max_cycles - t.current_cycle + 1) t st
      have hpos' : 0 <
          (KeyCycleTracker.getNextKeyAux cooldown now
            (t.max_cycles - t.current_cycle + 1) t st).2.1.all_keys.length := by
        rw [hf3]; exact hpos
      obtain ⟨hI', ha', hm', hP'⟩ := ih
        (KeyCycleTracker.getNextKeyAux cooldown now (t.max_cycles - t.current_cycle + 1) t st).2.1
        (KeyCycleTracker.getNextKeyAux cooldown now (t.max_cycles - t.current_cycle + 1) t st).2.2
        hpos' hI
      refine ⟨hI', by rw [ha', hf3], by rw [hm', hf2], ?_⟩
      rw [hP', hP]
      omega
    | markFail now key =>
      simp only [runOps, stepOp, numSuccesses]
      obtain ⟨hI', ha', hm', hP'⟩ := ih t (KeyCycleTracker.mark_failed now key st) hpos hinv
      exact ⟨hI', ha', hm', by rw [hP']; simp⟩

/-! ### Lemmas about `exhausted` -/

theorem exhausted_iff (t : KeyCycleTracker) :
    t.exhausted = true ↔
      t.all_keys = [] ∨ t.max_cycles ≤ t.current_cycle ∨
        (t.all_keys.length ≤ t.keys_tried_this_cycle.length ∧
          t.max_cycles ≤ t.current_cycle + 1) := by
  unfold KeyCycleTracker.exhausted KeyCycleTracker.should_reset_cycle
  split_ifs with h1 h2 h3
  · simp only [List.isEmpty_iff] at h1
    simp [h1]
  · simp [h2]
  · simp only [decide_eq_true_eq] at h3
    simp [h3]
  · simp only [decide_eq_true_eq] at h3
    constructor
    · intro h
      exact absurd h (by simp)
    · intro h
      rcases h with h | h | h
      · exact absurd h (by simpa [List.isEmpty_iff] using h1)
      · exact absurd h h2
      · exact absurd h h3

theorem exhausted_get_next_key_none (cooldown now : Int) (t : KeyCycleTracker)
    (st : KeyRotationState) (hsub : t.keys_tried_this_cycle ⊆ t.all_keys)
    (hnd : t.keys_tried_this_cycle.Nodup) (hex : t.exhausted = true) :
    (KeyCycleTracker.get_next_key cooldown now t st).1 = none := by
  rw [exhausted_iff] at hex
  unfold KeyCycleTracker.get_next_key
  rcases hex with h | h | h
  · simp [KeyCycleTracker.getNextKeyAux, List.isEmpty_iff, h]
  · simp [KeyCycleTracker.getNextKeyAux, h]
  · obtain ⟨hsw, hcy1⟩ := h
    by_cases hemp : t.all_keys.isEmpty
    · simp [KeyCycleTracker.getNextKeyAux, hemp]
    · by_cases hguard : t.max_cycles ≤ t.current_cycle
      · simp [KeyCycleTracker.getNextKeyAux, hguard]
      · have hpos : 0 < t.all_keys.length := by
          rcases Nat.eq_zero_or_pos t.all_keys.length with h0 | h0
          · exact absurd (List.isEmpty_iff.mpr (List.length_eq_zero.mp h0)) hemp
          · exact h0
        have hall : ∀ k ∈ t.all_keys, k ∈ t.keys_tried_this_cycle :=
          nodup_swept_mem hnd hsub hsw
        simp only [KeyCycleTracker.getNextKeyAux]
        rw [if_neg hemp, if_neg hguard]
        have hPnone := probeLoop_all_tried cooldown now st.failed_keys t.all_keys.length t
          hpos hall
        rcases hP : KeyCycleTracker.probeLoop cooldown now st.failed_keys t.all_keys.length t
          with ⟨r, t0⟩
        rw [hP] at hPnone
        simp only at hPnone
        subst hPnone
        simp only
        have hN := probeLoop_none cooldown now st.failed_keys t.all_keys.length t
        rw [hP] at hN
        have htr : t0.keys_tried_this_cycle = t.keys_tried_this_cycle := (hN rfl).1
        have hsw0 : t0.should_reset_cycle = true := by
          have hF := probeLoop_fields cooldown now st.failed_keys t.all_keys.length t
          rw [hP] at hF
          have ha : t0.all_keys = t.all_keys := hF.2.2.2
          simp [KeyCycleTracker.should_reset_cycle, htr, ha, hsw]
        rw [if_pos hsw0]
        have hF := probeLoop_fields cooldown now st.failed_keys t.all_keys.length t
        rw [hP] at hF
        have hc : t0.current_cycle = t.current_cycle := hF.2.2.1
        have hm : t0.max_cycles = t.max_cycles := hF.2.1
        have hcy2 : t.max_cycles = t.current_cycle + 1 := by omega
        obtain ⟨d, hd⟩ : ∃ d, t.max_cycles - t.current_cycle = d + 1 := ⟨0, by omega⟩
        rw [hd]
        simp only [KeyCycleTracker.getNextKeyAux]
        have hguard2 : t0.reset_cycle.max_cycles ≤ t0.reset_cycle.current_cycle := by
          have e1 : t0.reset_cycle.max_cycles = t0.max_cycles := rfl
          have e2 : t0.reset_cycle.current_cycle = t0.current_cycle + 1 := rfl
          omega
        split
        · rfl
        · rfl

/-! ### Claim C7: no key is returned twice within the same cycle -/

/-- **C7.** For every `KeyCycleTracker` and every interleaving of
`get_next_key` and `mark_failed` calls, no key value is returned twice within
the same cycle: whenever two `get_next_key` calls (separated by an arbitrary
interleaving of further calls) both return the same key `k`, a cycle reset has
happened in between — `current_cycle` at the second return is strictly greater
than at the first. -/
theorem C7_no_repeat_within_cycle (cooldown n1 n2 : Int) (t1 : KeyCycleTracker)
    (st1 : KeyRotationState) (k : String) (t2 : KeyCycleTracker) (st2 : KeyRotationState)
    (ops : List TrackerOp) (t4 : KeyCycleTracker) (st4 : KeyRotationState)
    (h1 : KeyCycleTracker.get_next_key cooldown n1 t1 st1 = (some k, t2, st2))
    (h2 : KeyCycleTracker.get_next_key cooldown n2 (runOps cooldown ops t2 st2).1
        (runOps cooldown ops t2 st2).2 = (some k, t4, st4)) :
    t2.current_cycle < t4.current_cycle := by
  obtain ⟨hk2, -, -⟩ :=
    getNextKeyAux_some cooldown n1 (t1.max_cycles - t1.current_cycle + 1) t1 st1 k t2 st2 h1
  obtain ⟨hmono, hsame⟩ := runOps_mono cooldown ops t2 st2
  obtain ⟨-, hle34, hnot3⟩ := getNextKeyAux_some cooldown n2
    ((runOps cooldown ops t2 st2).1.max_cycles -
      (runOps cooldown ops t2 st2).1.current_cycle + 1)
    (runOps cooldown ops t2 st2).1 (runOps cooldown ops t2 st2).2 k t4 st4 h2
  by_contra hcon
  have h24 : t4.current_cycle ≤ t2.current_cycle := by omega
  have h32 : (runOps cooldown ops t2 st2).1.current_cycle = t2.current_cycle := by omega
  have h43 : t4.current_cycle = (runOps cooldown ops t2 st2).1.current_cycle := by omega
  exact hnot3 h43 (hsame h32 hk2)

/-! ### Claim C8: exhaustion bound -/

/-- **C8.** `exhausted()` holds exactly when the key list is empty, or
`current_cycle ≥ max_cycles`, or the current cycle has been fully swept and
one more cycle would exceed `max_cycles`; once `exhausted()` is true (for a
tracker whose per-cycle set is a set of keys, as every reachable tracker's
is), `get_next_key()` returns `none`; and for a freshly constructed tracker
with a non-empty key list and `max_cycles ≥ 1`, `exhausted()` is true after
any operation sequence containing `max_cycles * len(keys)` `get_next_key()`
calls that returned a key — it becomes true no later than that. -/
theorem C8_exhausted_characterisation :
    (∀ t : KeyCycleTracker,
      t.exhausted = true ↔
        t.all_keys = [] ∨ t.max_cycles ≤ t.current_cycle ∨
          (t.all_keys.length ≤ t.keys_tried_this_cycle.length ∧
            t.max_cycles ≤ t.current_cycle + 1)) ∧
    (∀ (cooldown now : Int) (t : KeyCycleTracker) (st : KeyRotationState),
      t.keys_tried_this_cycle ⊆ t.all_keys → t.keys_tried_this_cycle.Nodup →
      t.exhausted = true →
      (KeyCycleTracker.get_next_key cooldown now t st).1 = none) ∧
    (∀ (cooldown : Int) (ops : List TrackerOp) (provider : String) (m : Nat)
      (keys : List String) (lastUsed : Int) (st : KeyRotationState),
      keys ≠ [] → 1 ≤ m →
      m * keys.length ≤
        numSuccesses cooldown ops (KeyCycleTracker.start provider m keys lastUsed) st →
      (runOps cooldown ops (KeyCycleTracker.start provider m keys lastUsed) st).1.exhausted =
        true) := by
  refine ⟨exhausted_iff, exhausted_get_next_key_none, ?_⟩
  intro cooldown ops provider m keys lastUsed st hk hm hsucc
  have hpos : 0 < keys.length := List.length_pos.mpr hk
  have hpos0 : 0 < (KeyCycleTracker.start provider m keys lastUsed).all_keys.length := hpos
  have hinv : TrackerInv (KeyCycleTracker.start provider m keys lastUsed) := by
    refine ⟨List.nil_subset _, List.nodup_nil, ?_⟩
    show 0 ≤ m
    omega
  obtain ⟨⟨hsub, hnd, hcy⟩, hall, hmax, hpot⟩ :=
    runOps_pot cooldown ops (KeyCycleTracker.start provider m keys lastUsed) st hpos0 hinv
  have hpot0 : trackerPot (KeyCycleTracker.start provider m keys lastUsed) = 0 := by
    simp [trackerPot, KeyCycleTracker.start]
  rw [hpot0] at hpot
  have htl : (runOps cooldown ops (KeyCycleTracker.start provider m keys lastUsed)
      st).1.keys_tried_this_cycle.length ≤ keys.length := by
    have := nodup_subset_length hnd hsub
    rw [hall] at this
    exact this
  rw [exhausted_iff]
  by_cases hcyc : m ≤ (runOps cooldown ops (KeyCycleTracker.start provider m keys lastUsed)
      st).1.current_cycle
  · right; left
    rw [hmax]
    exact hcyc
  · right; right
    have hcyc1 : (runOps cooldown ops (KeyCycleTracker.start provider m keys lastUsed)
        st).1.current_cycle + 1 ≤ m := by omega
    have hprod : ((runOps cooldown ops (KeyCycleTracker.start provider m keys lastUsed)
        st).1.current_cycle + 1) * keys.length ≤ m * keys.length :=
      Nat.mul_le_mul_right _ hcyc1
    rw [Nat.succ_mul] at hprod
    have hPotEq : (runOps cooldown ops (KeyCycleTracker.start provider m keys lastUsed)
        st).1.current_cycle * keys.length +
        (runOps cooldown ops (KeyCycleTracker.start provider m keys lastUsed)
          st).1.keys_tried_this_cycle.length =
        numSuccesses cooldown ops (KeyCycleTracker.start provider m keys lastUsed) st := by
      have h0 : trackerPot (runOps cooldown ops
          (KeyCycleTracker.start provider m keys lastUsed) st).1 =
          (runOps cooldown ops (KeyCycleTracker.start provider m keys lastUsed)
            st).1.current_cycle * keys.length +
          (runOps cooldown ops (KeyCycleTracker.start provider m keys lastUsed)
            st).1.keys_tried_this_cycle.length := by
        have hstart : (KeyCycleTracker.start provider m keys lastUsed).all_keys = keys := rfl
        unfold trackerPot
        rw [hall, hstart]
      omega
    have hswept : keys.length ≤ (runOps cooldown ops
        (KeyCycleTracker.start provider m keys lastUsed)
          st).1.keys_tried_this_cycle.length := by omega
    constructor
    · rw [hall]
      exact hswept
    · rw [hmax]
      have hBound : m * keys.length ≤ ((runOps cooldown ops
          (KeyCycleTracker.start provider m keys lastUsed) st).1.current_cycle + 1) *
            keys.length := by
        rw [Nat.succ_mul]
        omega
      exact Nat.le_of_mul_le_mul_right hBound hpos

/-- Witness for C8 at a concrete input: one key, one cycle; after a single
successful `get_next_key()` call the tracker is exhausted. -/
theorem C8_exhausted_characterisation_witness :
    1 * 1 ≤ numSuccesses 60 [TrackerOp.getKey 0]
        (KeyCycleTracker.start "p" 1 ["A"] (-1)) initRotationState ∧
    (runOps 60 [TrackerOp.getKey 0] (KeyCycleTracker.start "p" 1 ["A"] (-1))
        initRotationState).1.exhausted = true :=
  ⟨by decide,
    C8_exhausted_characterisation.2.2 60 [TrackerOp.getKey 0] "p" 1 ["A"] (-1)
      initRotationState (by decide) (by decide) (by decide)⟩

/-- Witness for C7 at a concrete input: keys `[A, B]`, `max_cycles = 2`; the
first call returns `A` in cycle 0, one interleaved call returns `B`, and the
next call returns `A` again only after the cycle counter has advanced. -/
theorem C7_no_repeat_within_cycle_witness :
    ({ provider := "p", max_cycles := 2, current_cycle := 0,
       keys_tried_this_cycle := ["A"], keys_attempted := ["A"],
       all_keys := ["A", "B"], key_index := 0 } : KeyCycleTracker).current_cycle <
    ({ provider := "p", max_cycles := 2, current_cycle := 1,
       keys_tried_this_cycle := ["A"], keys_attempted := ["B", "A"],
       all_keys := ["A", "B"], key_index := 0 } : KeyCycleTracker).current_cycle :=
  C7_no_repeat_within_cycle 60 0 0 (KeyCycleTracker.start "p" 2 ["A", "B"] (-1))
    initRotationState "A"
    { provider := "p", max_cycles := 2, current_cycle := 0,
      keys_tried_this_cycle := ["A"], keys_attempted := ["A"],
      all_keys := ["A", "B"], key_index := 0 }
    { last_used_index := 0, failed_keys := [] }
    [TrackerOp.getKey 0]
    { provider := "p", max_cycles := 2, current_cycle := 1,
      keys_tried_this_cycle := ["A"], keys_attempted := ["B", "A"],
      all_keys := ["A", "B"], key_index := 0 }
    { last_used_index := 0, failed_keys := [] }
    (by decide) (by decide)

/-! ### Claims C1 and C2: per-request cooldown bypass and the cooldown boundary -/

/-- **C1.** Within a single `KeyCycleTracker` (one request), once a key has
been returned by `get_next_key` and then marked failed, a later
`get_next_key` call in a subsequent cycle returns that key again regardless
of the provider's global `failed_keys` entries (which are unexpired here:
each failure is recorded at the same instant `now` the reads happen, and
`cooldown > 0`), provided `current_cycle < max_cycles`.  Concretely, with two
distinct keys `[A, B]`, `max_cycles = 2` and `last_used_index = -1`, the
sequence `get_next_key`, `mark_failed(A)`, `get_next_key`, `mark_failed(B)`,
`get_next_key`, `get_next_key`, `get_next_key` returns `A, B, A, B, none`
(the two `mark_failed` steps contribute the `none` rows of the trace). -/
theorem C1_per_request_cycling (provider A B : String) (cooldown now : Int)
    (hAB : A ≠ B) (hcd : 0 < cooldown) :
    (runTrace cooldown
        [TrackerOp.getKey now, TrackerOp.markFail now A, TrackerOp.getKey now,
         TrackerOp.markFail now B, TrackerOp.getKey now, TrackerOp.getKey now,
         TrackerOp.getKey now]
        (KeyCycleTracker.start provider 2 [A, B] (-1)) initRotationState).1 =
      [some A, none, some B, none, some A, some B, none] := by
  simp [runTrace, stepOp, KeyCycleTracker.get_next_key, KeyCycleTracker.getNextKeyAux,
    KeyCycleTracker.probeLoop, KeyCycleTracker.start, KeyCycleTracker.mark_failed,
    mark_key_failed, fmInsert, fmLookup, keyInCooldown, setInsert,
    KeyCycleTracker.should_reset_cycle, KeyCycleTracker.reset_cycle, initRotationState,
    hAB, Ne.symm hAB, hcd]

/-- Witness for C1 at a concrete input. -/
theorem C1_per_request_cycling_witness :
    (runTrace 60
        [TrackerOp.getKey 0, TrackerOp.markFail 0 "A", TrackerOp.getKey 0,
         TrackerOp.markFail 0 "B", TrackerOp.getKey 0, TrackerOp.getKey 0,
         TrackerOp.getKey 0]
        (KeyCycleTracker.start "openai" 2 ["A", "B"] (-1)) initRotationState).1 =
      [some "A", none, some "B", none, some "A", some "B", none] :=
  C1_per_request_cycling "openai" "A" "B" 60 0 (by decide) (by decide)

/-- **C2.** If a global failure for key `k` is recorded at time `t`
(`mark_failed` / `mark_key_failed`), then a fresh `KeyCycleTracker` that has
not itself attempted `k`, calling `get_next_key` at time `t'`, skips `k`
whenever `t' - t` is less than the cooldown duration, and returns `k` (all
keys otherwise available — here `k` is the sole key) whenever `t' - t` is at
least the cooldown duration: a failure entry is expired exactly when
`now - failed_at ≥ cooldown`. -/
theorem C2_cooldown_boundary (provider k : String) (m : Nat) (cooldown t t' : Int)
    (hm : 1 ≤ m) (ht : t ≤ t') :
    (KeyCycleTracker.get_next_key cooldown t'
        (KeyCycleTracker.start provider m [k] (-1))
        (mark_key_failed t k initRotationState)).1 =
      if t' - t < cooldown then none else some k := by
  have hm0 : ¬ (m ≤ 0) := by omega
  by_cases hlt : t' - t < cooldown
  · have hcd : 0 < cooldown := by omega
    rw [if_pos hlt]
    simp [KeyCycleTracker.get_next_key, KeyCycleTracker.getNextKeyAux,
      KeyCycleTracker.probeLoop, KeyCycleTracker.start, keyInCooldown, fmLookup,
      mark_key_failed, fmInsert, initRotationState, KeyCycleTracker.should_reset_cycle,
      hm0, hlt, hcd]
  · rw [if_neg hlt]
    simp [KeyCycleTracker.get_next_key, KeyCycleTracker.getNextKeyAux,
      KeyCycleTracker.probeLoop, KeyCycleTracker.start, keyInCooldown, fmLookup,
      mark_key_failed, fmInsert, initRotationState, KeyCycleTracker.should_reset_cycle,
      hm0, hlt]

/-- Witness for C2 at concrete inputs, one on each side of the cooldown
boundary: failure recorded at time 0, cooldown 60; a read at time 59 skips
the key, a read at time 60 returns it. -/
theorem C2_cooldown_boundary_witness :
    (KeyCycleTracker.get_next_key 60 59 (KeyCycleTracker.start "openai" 1 ["K"] (-1))
        (mark_key_failed 0 "K" initRotationState)).1 = none ∧
    (KeyCycleTracker.get_next_key 60 60 (KeyCycleTracker.start "openai" 1 ["K"] (-1))
        (mark_key_failed 0 "K" initRotationState)).1 = some "K" :=
  ⟨(C2_cooldown_boundary "openai" "K" 1 60 0 59 (by decide) (by decide)).trans (by decide),
    (C2_cooldown_boundary "openai" "K" 1 60 0 60 (by decide) (by decide)).trans (by decide)⟩

/-! ### Claim C3: round-robin progression of `get_api_key` -/

theorem getApiKeyLoop_avail (cooldown now : Int) (keys : List String) (lastIdx : Int)
    (r offset : Nat) (fk : FailMap)
    (hav : ∀ p ∈ fk, ¬(0 < cooldown ∧ now - p.2 < cooldown)) :
    (getApiKeyLoop cooldown now keys lastIdx (r + 1) offset fk).1 =
      some ((lastIdx + 1 + (offset : Int)) % (keys.length : Int),
        keys.getD ((lastIdx + 1 + (offset : Int)) % (keys.length : Int)).toNat "") ∧
    ∀ p ∈ (getApiKeyLoop cooldown now keys lastIdx (r + 1) offset fk).2,
      ¬(0 < cooldown ∧ now - p.2 < cooldown) := by
  simp only [getApiKeyLoop]
  split
  · rename_i ft hlk
    have hnc := hav _ (fmLookup_mem hlk)
    split
    · rename_i hcd
      rw [if_neg (by tauto)]
      exact ⟨rfl, fun p hp => hav p (fmErase_subset fk _ p hp)⟩
    · exact ⟨rfl, hav⟩
  · exact ⟨rfl, hav⟩

theorem get_api_key_step (cooldown now : Int) (keys : List String) (st : KeyRotationState)
    (hpos : 0 < keys.length)
    (hav : ∀ p ∈ st.failed_keys, ¬(0 < cooldown ∧ now - p.2 < cooldown)) :
    (get_api_key cooldown now keys st).1 =
      some (keys.getD (((st.last_used_index + 1) % (keys.length : Int)).toNat) "") ∧
    (get_api_key cooldown now keys st).2.last_used_index =
      (st.last_used_index + 1) % (keys.length : Int) ∧
    ∀ p ∈ (get_api_key cooldown now keys st).2.failed_keys,
      ¬(0 < cooldown ∧ now - p.2 < cooldown) := by
  obtain ⟨r, hr⟩ : ∃ r, keys.length = r + 1 := ⟨keys.length - 1, by omega⟩
  have hne : ¬ keys.isEmpty = true := by
    rw [List.isEmpty_iff]
    intro h
    rw [h] at hpos
    simp at hpos
  obtain ⟨hL1, hL2⟩ := getApiKeyLoop_avail cooldown now keys st.last_used_index r 0
    st.failed_keys hav
  rw [← hr] at hL1 hL2
  have hE : getApiKeyLoop cooldown now keys st.last_used_index keys.length 0 st.failed_keys =
      (some ((st.last_used_index + 1 + ((0 : Nat) : Int)) % (keys.length : Int),
        keys.getD ((st.last_used_index + 1 + ((0 : Nat) : Int)) %
          (keys.length : Int)).toNat ""),
       (getApiKeyLoop cooldown now keys st.last_used_index keys.length 0 st.failed_keys).2) := by
    rw [← hL1]
  unfold get_api_key
  rw [if_neg hne, hE]
  simp only [Nat.cast_zero, add_zero]
  exact ⟨trivial, trivial, hL2⟩

/-- **C3.** On a provider all of whose keys are available (every failure entry
absent or expired), `N` consecutive key selections return the keys whose
indices form the modular progression `last_used_index + 1`,
`last_used_index + 2`, ... modulo `len(keys)`. -/
theorem C3_round_robin (cooldown now : Int) (keys : List String) :
    ∀ (N : Nat) (st : KeyRotationState), keys ≠ [] →
      (∀ p ∈ st.failed_keys, ¬(0 < cooldown ∧ now - p.2 < cooldown)) →
      (getApiKeyRun cooldown now keys N st).1 =
        (List.range N).map fun i : Nat =>
          some (keys.getD (((st.last_used_index + 1 + (i : Int)) %
            (keys.length : Int)).toNat) "") := by
  intro N
  induction N with
  | zero => intro st _ _; simp [getApiKeyRun]
  | succ N ih =>
    intro st hk hav
    have hpos : 0 < keys.length := List.length_pos.mpr hk
    obtain ⟨h1, h2, h3⟩ := get_api_key_step cooldown now keys st hpos hav
    have htail := ih (get_api_key cooldown now keys st).2 hk h3
    simp only [getApiKeyRun]
    rw [List.range_succ_eq_map, List.map_cons, List.map_map, h1, htail, h2]
    congr 1
    · simp
    · apply List.map_congr_left
      intro x hx
      simp only [Function.comp_apply]
      congr 2
      rw [show (st.last_used_index + 1) % (keys.length : Int) + 1 + (x : Int) =
          (st.last_used_index + 1) % (keys.length : Int) + (1 + (x : Int)) by ring,
        Int.emod_add_emod]
      push_cast
      ring_nf

/-- Witness for C3 at the concrete scenario S2: three keys `[A, B, C]`, no
failures, `last_used_index = -1`; four calls to `get_api_key` return
`A, B, C, A`. -/
theorem C3_round_robin_witness :
    (getApiKeyRun 60 0 ["A", "B", "C"] 4 initRotationState).1 =
      [some "A", some "B", some "C", some "A"] :=
  (C3_round_robin 60 0 ["A", "B", "C"] 4 initRotationState (by decide)
    (fun p hp => by simp [initRotationState] at hp)).trans (by decide)

/-! ### Claim C4: the key parser -/

theorem addKey_some (ks : List String) (v : String) :
    addKey ks (some v) = if v ∈ ks then ks else if v = "" then ks else ks ++ [v] := by
  simp only [addKey]
  by_cases hm : v ∈ ks
  · rw [if_pos hm, if_neg (by tauto)]
  · by_cases hv : v = ""
    · rw [if_neg hm, if_pos hv, if_neg (by tauto)]
    · rw [if_neg hm, if_neg hv, if_pos ⟨hv, hm⟩]

theorem addKey_nodup {ks : List String} (h : ks.Nodup) (v : Option String) :
    (addKey ks v).Nodup := by
  cases v with
  | none => exact h
  | some s =>
    rw [addKey_some]
    split
    · exact h
    · split
      · exact h
      · rename_i hm _
        refine List.Nodup.append h (List.nodup_singleton s) ?_
        intro x hx hx'
        rw [List.mem_singleton] at hx'
        subst hx'
        exact hm hx

theorem foldl_addKey_nodup {α : Type} (f : α → Option String) :
    ∀ (l : List α) (ks : List String), ks.Nodup →
      (l.foldl (fun a x => addKey a (f x)) ks).Nodup := by
  intro l
  induction l with
  | nil => intro ks h; exact h
  | cons x l ih =>
    intro ks h
    exact ih _ (addKey_nodup h (f x))

theorem parseKeysWithPatterns_nodup (patterns : List EnvPattern) (env : Env) :
    (parseKeysWithPatterns patterns env).Nodup := by
  unfold parseKeysWithPatterns
  suffices h : ∀ (ps : List EnvPattern) (ks : List String), ks.Nodup →
      (ps.foldl
        (fun ks pat =>
          match pat with
          | .lit name => addKey ks (envGet env name)
          | .indexed base =>
              (collectIndexed base env).foldl (fun ks iv => addKey ks (some iv.2)) ks)
        ks).Nodup by
    exact h patterns [] List.nodup_nil
  intro ps
  induction ps with
  | nil => intro ks h; exact h
  | cons p ps ih =>
    intro ks h
    cases p with
    | lit name => exact ih _ (addKey_nodup h _)
    | indexed base => exact ih _ (foldl_addKey_nodup (fun iv : Nat × String => some iv.2) _ ks h)

theorem addKey_eq_dedupAppend_step (ks : List String) (v : String) (hv : ¬v = "") :
    addKey ks (some v) = if v ∈ ks then ks else ks ++ [v] := by
  rw [addKey_some]
  by_cases hm : v ∈ ks
  · rw [if_pos hm, if_pos hm]
  · rw [if_neg hm, if_neg hm, if_neg hv]

theorem foldl_addKey_eq_dedupAppend :
    ∀ (l : List String) (ks : List String),
      l.foldl (fun a v => addKey a (some v)) ks =
        dedupAppend ks (l.filter fun v => v ≠ "") := by
  intro l
  induction l with
  | nil => intro ks; rfl
  | cons v l ih =>
    intro ks
    simp only [List.foldl_cons, List.filter_cons]
    by_cases hv : v = ""
    · subst hv
      rw [if_neg (by simp)]
      rw [show addKey ks (some "") = ks from by rw [addKey_some]; simp]
      exact ih ks
    · rw [if_pos (by simp [hv])]
      rw [ih (addKey ks (some v))]
      unfold dedupAppend
      rw [List.foldl_cons]
      congr 1
      rw [addKey_eq_dedupAppend_step ks v hv]

theorem foldl_addKey_pairs :
    ∀ (l : List (Nat × String)) (ks : List String),
      l.foldl (fun a iv => addKey a (some iv.2)) ks =
        dedupAppend ks ((l.map Prod.snd).filter fun v => v ≠ "") := by
  intro l
  induction l with
  | nil => intro ks; rfl
  | cons iv l ih =>
    intro ks
    simp only [List.foldl_cons, List.map_cons, List.filter_cons]
    by_cases hv : iv.2 = ""
    · rw [if_neg (by simp [hv])]
      rw [show addKey ks (some iv.2) = ks from by rw [addKey_some]; simp [hv]]
      exact ih ks
    · rw [if_pos (by simp [hv])]
      rw [ih (addKey ks (some iv.2))]
      unfold dedupAppend
      rw [List.foldl_cons]
      congr 1
      rw [addKey_eq_dedupAppend_step ks iv.2 hv]

theorem addKey_lit_eq_dedupAppend (ks : List String) (v : Option String) :
    addKey ks v = dedupAppend ks (v.toList.filter fun s => s ≠ "") := by
  cases v with
  | none => rfl
  | some s =>
    simp only [Option.toList_some, List.filter_cons, List.filter_nil]
    by_cases hs : s = ""
    · rw [if_neg (by simp [hs])]
      rw [addKey_some]
      simp [hs, dedupAppend]
    · rw [if_pos (by simp [hs])]
      unfold dedupAppend
      rw [List.foldl_cons, List.foldl_nil]
      rw [addKey_eq_dedupAppend_step ks s hs]

theorem parse_eq_specParse (provider : String) (env : Env) :
    parse_provider_keys provider env = specParse provider env := by
  unfold parse_provider_keys parseKeysWithPatterns defaultPatterns specParse
  simp only [List.foldl_cons, List.foldl_nil]
  rw [foldl_addKey_pairs, addKey_lit_eq_dedupAppend]
  unfold dedupAppend
  rw [← List.foldl_append, ← List.filter_append]

theorem mem_insSorted (x a : Nat × String) :
    ∀ l : List (Nat × String), a ∈ insSorted x l ↔ a = x ∨ a ∈ l := by
  intro l
  induction l with
  | nil => simp [insSorted]
  | cons y ys ih =>
    simp only [insSorted]
    split
    · simp only [List.mem_cons, ih]
      tauto
    · simp only [List.mem_cons]

theorem insSorted_pairwise (x : Nat × String) :
    ∀ l : List (Nat × String),
      List.Pairwise (fun a b : Nat × String => a.1 ≤ b.1) l →
      List.Pairwise (fun a b : Nat × String => a.1 ≤ b.1) (insSorted x l) := by
  intro l
  induction l with
  | nil => intro _; simp [insSorted]
  | cons y ys ih =>
    intro h
    rw [List.pairwise_cons] at h
    obtain ⟨hy, hys⟩ := h
    simp only [insSorted]
    split
    · rename_i hlt
      rw [List.pairwise_cons]
      refine ⟨?_, ih hys⟩
      intro a ha
      rw [mem_insSorted] at ha
      rcases ha with rfl | ha
      · omega
      · exact hy a ha
    · rename_i hge
      rw [List.pairwise_cons]
      refine ⟨?_, List.pairwise_cons.mpr ⟨hy, hys⟩⟩
      intro a ha
      rcases List.mem_cons.mp ha with rfl | ha
      · omega
      · have := hy a ha
        omega

theorem sortByIdx_pairwise (l : List (Nat × String)) :
    List.Pairwise (fun a b : Nat × String => a.1 ≤ b.1) (sortByIdx l) := by
  unfold sortByIdx
  induction l with
  | nil => simp
  | cons x xs ih => exact insSorted_pairwise x _ ih

/-- **C4.** For every provider name and environment, `parse_provider_keys`
returns a duplicate-free list ordered with the literal pattern's key first and
then keys from the `{INDEX}` pattern sorted ascending by numeric index,
treating empty-string variables as unset and deduplicating by value keeping
the first occurrence: the output is duplicate-free for every pattern list,
the indexed matches are sorted ascending by index, the parser coincides with
`specParse` (the spec's wording of the contract: literal value first, then
indexed values in index order, empty values dropped, first occurrence kept),
and the S1 example evaluates to `["A", "B"]`. -/
theorem C4_parse_provider_keys :
    (∀ (patterns : List EnvPattern) (env : Env), (parseKeysWithPatterns patterns env).Nodup) ∧
    (∀ (base : String) (env : Env),
      List.Pairwise (fun a b : Nat × String => a.1 ≤ b.1) (collectIndexed base env)) ∧
    (∀ (provider : String) (env : Env),
      parse_provider_keys provider env = specParse provider env) ∧
    parse_provider_keys "openai"
        [("OPENAI_API_KEY", "A"), ("OPENAI_API_KEY_1", "A"), ("OPENAI_API_KEY_2", "B")] =
      ["A", "B"] :=
  ⟨parseKeysWithPatterns_nodup,
   fun base env => sortByIdx_pairwise _,
   parse_eq_specParse,
   by decide⟩

/-! ### Claim C5: `all_keys_in_cooldown` -/

theorem keyInCooldown_iff (cooldown now : Int) (fk : FailMap) (k : String) :
    keyInCooldown cooldown now fk k = true ↔
      ∃ ft, fmLookup fk k = some ft ∧ now - ft < cooldown := by
  unfold keyInCooldown
  cases h : fmLookup fk k with
  | none => simp
  | some ft => simp [h]

/-- **C5 counterexample.** With an empty key list and `KEY_COOLDOWN_SECONDS
= 0` (cooldown disabled, no provider-wide cooldown exists in the code),
`all_keys_in_cooldown()` returns `true`, not `false` as the claim's
"returns false unconditionally — even when the key list is empty" requires:
the source checks `not self._all_keys` first and returns `True`. -/
theorem C5_counterexample :
    KeyCycleTracker.all_keys_in_cooldown 0 0 (KeyCycleTracker.start "openai" 1 [] (-1))
      initRotationState = true := by
  decide

/-- **C5 (amended).** `all_keys_in_cooldown()` returns true iff the key list
is empty, or `KEY_COOLDOWN_SECONDS > 0` and every key has an unexpired global
failure entry (`now - failed_at < cooldown`).  In particular with a
non-empty key list and `KEY_COOLDOWN_SECONDS ≤ 0` it returns false, but with
an empty key list it returns true unconditionally. -/
theorem C5_all_keys_in_cooldown (cooldown now : Int) (t : KeyCycleTracker)
    (st : KeyRotationState) :
    KeyCycleTracker.all_keys_in_cooldown cooldown now t st = true ↔
      (t.all_keys = [] ∨
        (0 < cooldown ∧ ∀ k ∈ t.all_keys,
          ∃ ft, fmLookup st.failed_keys k = some ft ∧ now - ft < cooldown)) := by
  unfold KeyCycleTracker.all_keys_in_cooldown
  split
  · rename_i he
    rw [List.isEmpty_iff] at he
    simp [he]
  · rename_i he
    rw [List.isEmpty_iff] at he
    split
    · rename_i hcd
      simp only [Bool.false_eq_true, false_iff]
      rintro (h | ⟨hpos, -⟩)
      · exact he h
      · omega
    · rename_i hcd
      rw [List.all_eq_true]
      constructor
      · intro h
        right
        refine ⟨by omega, fun k hk => ?_⟩
        exact (keyInCooldown_iff cooldown now st.failed_keys k).mp (h k hk)
      · rintro (h | ⟨-, h⟩)
        · exact absurd h he
        · intro k hk
          exact (keyInCooldown_iff cooldown now st.failed_keys k).mpr (h k hk)

/-! ### Claim C6: lazy purging of expired failure entries -/

theorem fmLookup_cons_self (k : String) (t : Int) (rest : FailMap) :
    fmLookup ((k, t) :: rest) k = some t := by
  simp [fmLookup]

theorem fmLookup_cons_ne {k1 k : String} (h : k1 ≠ k) (t : Int) (rest : FailMap) :
    fmLookup ((k1, t) :: rest) k = fmLookup rest k := by
  simp [fmLookup, h]

theorem fmLookup_filter_none (p : String × Int → Bool) :
    ∀ (fk : FailMap) (k : String), fmLookup fk k = none →
      fmLookup (fk.filter p) k = none := by
  intro fk
  induction fk with
  | nil => intro k _; rfl
  | cons e rest ih =>
    obtain ⟨k1, t1⟩ := e
    intro k h
    by_cases hk : k1 = k
    · subst hk
      rw [fmLookup_cons_self] at h
      exact absurd h (by simp)
    · rw [fmLookup_cons_ne hk] at h
      rw [List.filter_cons]
      split
      · rw [fmLookup_cons_ne hk]
        exact ih k h
      · exact ih k h

theorem fmLookup_none_of_not_mem_keys :
    ∀ (fk : FailMap) (k : String), k ∉ fk.map Prod.fst → fmLookup fk k = none := by
  intro fk
  induction fk with
  | nil => intro k _; rfl
  | cons e rest ih =>
    obtain ⟨k1, t1⟩ := e
    intro k h
    simp only [List.map_cons, List.mem_cons] at h
    push_neg at h
    rw [fmLookup_cons_ne (fun he : k1 = k => h.1 he.symm) t1 rest]
    exact ih k h.2

theorem fmLookup_purge (cooldown now : Int) :
    ∀ (fk : FailMap) (k : String), fmKeysNodup fk →
      fmLookup (purgeExpired cooldown now fk) k =
        match fmLookup fk k with
        | some ft => if 0 < cooldown ∧ now - ft < cooldown then some ft else none
        | none => none := by
  intro fk
  induction fk with
  | nil => intro k _; rfl
  | cons e rest ih =>
    obtain ⟨k1, t1⟩ := e
    intro k hnd
    have hnd1 : k1 ∉ rest.map Prod.fst := by
      simpa [fmKeysNodup] using (List.nodup_cons.mp hnd).1
    have hndr : fmKeysNodup rest := (List.nodup_cons.mp hnd).2
    unfold purgeExpired
    rw [List.filter_cons]
    by_cases hk : k1 = k
    · subst hk
      rw [fmLookup_cons_self]
      show _ = if 0 < cooldown ∧ now - t1 < cooldown then some t1 else none
      split
      · rename_i hkeep
        simp only [Bool.and_eq_true, decide_eq_true_eq] at hkeep
        rw [fmLookup_cons_self, if_pos hkeep]
      · rename_i hdrop
        simp only [Bool.and_eq_true, decide_eq_true_eq] at hdrop
        rw [if_neg hdrop]
        exact fmLookup_filter_none _ rest k1 (fmLookup_none_of_not_mem_keys rest k1 hnd1)
    · rw [fmLookup_cons_ne hk]
      split
      · rw [fmLookup_cons_ne hk]
        exact ih k hndr
      · exact ih k hndr

theorem keyInCooldown_purge (cooldown now : Int) (fk : FailMap) (k : String)
    (hnd : fmKeysNodup fk) (hcd : 0 < cooldown) :
    keyInCooldown cooldown now (purgeExpired cooldown now fk) k =
      keyInCooldown cooldown now fk k := by
  unfold keyInCooldown
  rw [fmLookup_purge cooldown now fk k hnd]
  cases h : fmLookup fk k with
  | none => rfl
  | some ft =>
    by_cases hx : now - ft < cooldown
    · simp [hx, hcd]
    · simp [hx]

theorem probe_cond_purge (cooldown now : Int) (fk : FailMap) (k : String)
    (att : List String) (hnd : fmKeysNodup fk) :
    (k ∉ att ∧ 0 < cooldown ∧
        keyInCooldown cooldown now (purgeExpired cooldown now fk) k = true) ↔
      (k ∉ att ∧ 0 < cooldown ∧ keyInCooldown cooldown now fk k = true) := by
  refine and_congr_right fun _ => and_congr_right fun hcd => ?_
  rw [keyInCooldown_purge cooldown now fk k hnd hcd]

theorem probeLoop_purge (cooldown now : Int) (fk : FailMap) (hnd : fmKeysNodup fk) :
    ∀ (m : Nat) (t : KeyCycleTracker),
      KeyCycleTracker.probeLoop cooldown now (purgeExpired cooldown now fk) m t =
        KeyCycleTracker.probeLoop cooldown now fk m t := by
  intro m
  induction m with
  | zero => intro t; rfl
  | succ m ih =>
    intro t
    simp only [KeyCycleTracker.probeLoop]
    split
    · exact ih _
    · rename_i hmem
      by_cases hc : (t.all_keys.getD (((t.key_index + 1) %
            (t.all_keys.length : Int)).toNat) "" ∉ t.keys_attempted ∧ 0 < cooldown ∧
          keyInCooldown cooldown now fk
            (t.all_keys.getD (((t.key_index + 1) % (t.all_keys.length : Int)).toNat) "") =
            true)
      · rw [if_pos ((probe_cond_purge cooldown now fk _ _ hnd).mpr hc), if_pos hc]
        exact ih _
      · rw [if_neg (fun h => hc ((probe_cond_purge cooldown now fk _ _ hnd).mp h)),
          if_neg hc]

theorem get_next_key_purge (cooldown now : Int) (t : KeyCycleTracker)
    (st : KeyRotationState) (hnd : fmKeysNodup st.failed_keys) :
    (KeyCycleTracker.get_next_key cooldown now t
        { st with failed_keys := purgeExpired cooldown now st.failed_keys }).1 =
      (KeyCycleTracker.get_next_key cooldown now t st).1 := by
  unfold KeyCycleTracker.get_next_key
  generalize t.max_cycles - t.current_cycle + 1 = depth
  induction depth generalizing t with
  | zero => rfl
  | succ depth ih =>
    simp only [KeyCycleTracker.getNextKeyAux]
    split
    · rfl
    · split
      · rfl
      · rw [probeLoop_purge cooldown now st.failed_keys hnd]
        split
        · rfl
        · rename_i t' heq
          by_cases hrs : t'.should_reset_cycle = true
          · rw [if_pos hrs, if_pos hrs]
            exact ih _
          · rw [if_neg hrs, if_neg hrs]

theorem getApiKeyLoop_purge (cooldown now : Int) (keys : List String) (lastIdx : Int)
    (fk : FailMap) (hnd : fmKeysNodup fk) :
    ∀ (r offset : Nat),
      (getApiKeyLoop cooldown now keys lastIdx r offset (purgeExpired cooldown now fk)).1 =
        (getApiKeyLoop cooldown now keys lastIdx r offset fk).1 := by
  intro r
  induction r with
  | zero => intro offset; rfl
  | succ r ih =>
    intro offset
    simp only [getApiKeyLoop]
    rw [fmLookup_purge cooldown now fk _ hnd]
    rcases h : fmLookup fk
        (keys.getD ((lastIdx + 1 + (offset : Int)) % (keys.length : Int)).toNat "")
      with _ | ft
    · rfl
    · by_cases hcd : 0 < cooldown
      · by_cases hx : now - ft < cooldown
        · simp only [if_pos (And.intro hcd hx), if_pos hcd, if_pos hx]
          exact ih (offset + 1)
        · simp only [if_neg (fun hc : 0 < cooldown ∧ now - ft < cooldown => hx hc.2),
            if_pos hcd, if_neg hx]
      · simp only [if_neg (fun hc : 0 < cooldown ∧ now - ft < cooldown => hcd hc.1),
          if_neg hcd]

theorem getApiKeyLoop_some_failed (cooldown now : Int) (keys : List String) (lastIdx : Int) :
    ∀ (r offset : Nat) (fk : FailMap) (i : Int) (c : String),
      (getApiKeyLoop cooldown now keys lastIdx r offset fk).1 = some (i, c) →
      (getApiKeyLoop cooldown now keys lastIdx r offset fk).2 =
        match fmLookup fk c with
        | some ft => if 0 < cooldown ∧ cooldown ≤ now - ft then fmErase fk c else fk
        | none => fk := by
  intro r
  induction r with
  | zero => intro offset fk i c h; exact absurd h (by simp [getApiKeyLoop])
  | succ r ih =>
    intro offset fk i c h
    simp only [getApiKeyLoop] at h ⊢
    rcases hlk : fmLookup fk
        (keys.getD ((lastIdx + 1 + (offset : Int)) % (keys.length : Int)).toNat "")
      with _ | ft
    · rw [hlk] at h
      injection h with h
      rw [Prod.mk.injEq] at h
      simp only [← h.2, hlk]
    · rw [hlk] at h
      by_cases hcd : 0 < cooldown
      · by_cases hx : now - ft < cooldown
        · simp only [if_pos hcd, if_pos hx] at h ⊢
          exact ih (offset + 1) fk i c h
        · simp only [if_pos hcd, if_neg hx] at h ⊢
          injection h with h
          rw [Prod.mk.injEq] at h
          simp only [← h.2, hlk,
            if_pos (show 0 < cooldown ∧ cooldown ≤ now - ft from ⟨hcd, by omega⟩)]
      · simp only [if_neg hcd] at h ⊢
        injection h with h
        rw [Prod.mk.injEq] at h
        simp only [← h.2, hlk,
          if_neg (fun hc : 0 < cooldown ∧ cooldown ≤ now - ft => hcd hc.1)]

theorem getApiKeyLoop_none_failed (cooldown now : Int) (keys : List String) (lastIdx : Int) :
    ∀ (r offset : Nat) (fk : FailMap),
      (getApiKeyLoop cooldown now keys lastIdx r offset fk).1 = none →
      (getApiKeyLoop cooldown now keys lastIdx r offset fk).2 = fk := by
  intro r
  induction r with
  | zero => intro offset fk _; rfl
  | succ r ih =>
    intro offset fk h
    simp only [getApiKeyLoop] at h ⊢
    rcases hlk : fmLookup fk
        (keys.getD ((lastIdx + 1 + (offset : Int)) % (keys.length : Int)).toNat "")
      with _ | ft
    · rw [hlk] at h
    · rw [hlk] at h
      by_cases hcd : 0 < cooldown
      · by_cases hx : now - ft < cooldown
        · simp only [if_pos hcd, if_pos hx] at h ⊢
          exact ih (offset + 1) fk h
        · simp only [if_pos hcd, if_neg hx] at h
          exact absurd h (by simp)
      · simp only [if_neg hcd] at h
        exact absurd h (by simp)

theorem get_api_key_purge (cooldown now : Int) (keys : List String) (li : Int) (fk : FailMap)
    (hnd : fmKeysNodup fk) :
    (get_api_key cooldown now keys ⟨li, purgeExpired cooldown now fk⟩).1 =
      (get_api_key cooldown now keys ⟨li, fk⟩).1 := by
  unfold get_api_key
  by_cases hk : keys.isEmpty
  · rw [if_pos hk, if_pos hk]
  · rw [if_neg hk, if_neg hk]
    have hL := getApiKeyLoop_purge cooldown now keys li fk hnd keys.length 0
    rcases hO : getApiKeyLoop cooldown now keys li keys.length 0 fk with ⟨o, fk1⟩
    rcases hP : getApiKeyLoop cooldown now keys li keys.length 0
        (purgeExpired cooldown now fk) with ⟨oP, fk2⟩
    rw [hO, hP] at hL
    have hL' : oP = o := hL
    subst hL'
    cases oP with
    | none => rfl
    | some ik => rfl

theorem get_api_key_failed_some (cooldown now : Int) (keys : List String) (li : Int)
    (fk : FailMap) (k : String)
    (h : (get_api_key cooldown now keys ⟨li, fk⟩).1 = some k) :
    (get_api_key cooldown now keys ⟨li, fk⟩).2.failed_keys =
      match fmLookup fk k with
      | some ft => if 0 < cooldown ∧ cooldown ≤ now - ft then fmErase fk k else fk
      | none => fk := by
  unfold get_api_key at h ⊢
  by_cases hk : keys.isEmpty
  · rw [if_pos hk] at h
    exact absurd h (by simp)
  · rw [if_neg hk] at h ⊢
    rcases hO : getApiKeyLoop cooldown now keys li keys.length 0 fk with ⟨o, fk1⟩
    rw [hO] at h
    cases o with
    | none => exact absurd h (by simp)
    | some ik =>
      obtain ⟨i, c⟩ := ik
      injection h with h
      subst h
      have hF := getApiKeyLoop_some_failed cooldown now keys li keys.length 0 fk i c
        (by rw [hO])
      rw [hO] at hF
      exact hF

theorem get_api_key_failed_none (cooldown now : Int) (keys : List String) (li : Int)
    (fk : FailMap)
    (h : (get_api_key cooldown now keys ⟨li, fk⟩).1 = none) :
    (get_api_key cooldown now keys ⟨li, fk⟩).2.failed_keys = fk := by
  unfold get_api_key
  by_cases hk : keys.isEmpty
  · rw [if_pos hk]
  · unfold get_api_key at h
    rw [if_neg hk] at h ⊢
    rcases hO : getApiKeyLoop cooldown now keys li keys.length 0 fk with ⟨o, fk1⟩
    rw [hO] at h
    cases o with
    | some ik => exact absurd h (by simp)
    | none =>
      have hF := getApiKeyLoop_none_failed cooldown now keys li keys.length 0 fk
        (by rw [hO])
      rw [hO] at hF
      exact hF

/-- **C6 counterexample.** `KeyCycleTracker.get_next_key` consults an expired
failure entry (`now - failed_at = 100 ≥ 60 = cooldown`), behaves as if it
were absent (the key is returned), but does **not** remove it from the
provider's `failed_keys` map, contradicting the claim that every
key-selection read purges the expired entries it consults: only `get_api_key`
deletes them. -/
theorem C6_counterexample :
    (KeyCycleTracker.get_next_key 60 100 (KeyCycleTracker.start "openai" 1 ["A"] (-1))
        { last_used_index := -1, failed_keys := [("A", 0)] }).1 = some "A" ∧
    (KeyCycleTracker.get_next_key 60 100 (KeyCycleTracker.start "openai" 1 ["A"] (-1))
        { last_used_index := -1, failed_keys := [("A", 0)] }).2.2.failed_keys =
      [("A", 0)] := by
  decide

/-- **C6 (amended).** Expired failure entries are never observed, and
`get_api_key` purges lazily on read while `KeyCycleTracker.get_next_key` does
not: (1) `get_next_key` never modifies `failed_keys`; (2) `get_next_key`
returns the same key as on a state whose expired entries were removed
beforehand; (3) likewise for `get_api_key`; (4) when `get_api_key` returns a
key, the only change to `failed_keys` is that the returned key's entry is
deleted when it exists and its cooldown has elapsed
(`now - failed_at ≥ cooldown > 0`); (5) when `get_api_key` returns no key,
`failed_keys` is unchanged. -/
theorem C6_lazy_purge :
    (∀ (cooldown now : Int) (t : KeyCycleTracker) (st : KeyRotationState),
      (KeyCycleTracker.get_next_key cooldown now t st).2.2.failed_keys = st.failed_keys) ∧
    (∀ (cooldown now : Int) (t : KeyCycleTracker) (st : KeyRotationState),
      fmKeysNodup st.failed_keys →
      (KeyCycleTracker.get_next_key cooldown now t
          { st with failed_keys := purgeExpired cooldown now st.failed_keys }).1 =
        (KeyCycleTracker.get_next_key cooldown now t st).1) ∧
    (∀ (cooldown now : Int) (keys : List String) (li : Int) (fk : FailMap),
      fmKeysNodup fk →
      (get_api_key cooldown now keys ⟨li, purgeExpired cooldown now fk⟩).1 =
        (get_api_key cooldown now keys ⟨li, fk⟩).1) ∧
    (∀ (cooldown now : Int) (keys : List String) (li : Int) (fk : FailMap) (k : String),
      (get_api_key cooldown now keys ⟨li, fk⟩).1 = some k →
      (get_api_key cooldown now keys ⟨li, fk⟩).2.failed_keys =
        match fmLookup fk k with
        | some ft => if 0 < cooldown ∧ cooldown ≤ now - ft then fmErase fk k else fk
        | none => fk) ∧
    (∀ (cooldown now : Int) (keys : List String) (li : Int) (fk : FailMap),
      (get_api_key cooldown now keys ⟨li, fk⟩).1 = none →
      (get_api_key cooldown now keys ⟨li, fk⟩).2.failed_keys = fk) :=
  ⟨fun cooldown now t st => getNextKeyAux_failed cooldown now _ t st,
   get_next_key_purge, get_api_key_purge, get_api_key_failed_some, get_api_key_failed_none⟩

/-- Witness for the amended C6 at a concrete input: one key `A` with an
expired entry (failed at 0, read at 100, cooldown 60); selection sees the key
as available, and `get_api_key` removes the entry while returning it. -/
theorem C6_lazy_purge_witness :
    fmKeysNodup [("A", (0 : Int))] ∧
    (get_api_key 60 100 ["A"] ⟨-1, purgeExpired 60 100 [("A", 0)]⟩).1 =
      (get_api_key 60 100 ["A"] ⟨-1, [("A", 0)]⟩).1 ∧
    (get_api_key 60 100 ["A"] ⟨-1, [("A", 0)]⟩).2.failed_keys = [] :=
  ⟨by unfold fmKeysNodup; decide,
   C6_lazy_purge.2.2.1 60 100 ["A"] (-1) [("A", 0)] (by unfold fmKeysNodup; decide),
   (C6_lazy_purge.2.2.2.1 60 100 ["A"] (-1) [("A", 0)] "A" (by decide)).trans (by decide)⟩

/-! ### Claims C9 and C10: resets and the unfiltered key accessors -/

theorem gsGet_gsSet (g : GlobalState) (p : String) (s : KeyRotationState) (q : String) :
    gsGet (gsSet g p s) q = if q = p then s else gsGet g q := by
  induction g with
  | nil =>
    by_cases hq : q = p
    · subst hq
      simp [gsSet, gsGet]
    · have hq' : ¬ p = q := fun h => hq h.symm
      simp [gsSet, gsGet, hq, hq']
  | cons e rest ih =>
    obtain ⟨p1, s1⟩ := e
    simp only [gsSet]
    by_cases h1 : p1 = p
    · subst h1
      rw [if_pos rfl]
      by_cases hq : q = p1
      · subst hq
        simp [gsGet]
      · have hq' : ¬ p1 = q := fun h => hq h.symm
        simp [gsGet, hq, hq']
    · rw [if_neg h1]
      simp only [gsGet]
      by_cases h2 : p1 = q
      · subst h2
        have hqp : ¬ p1 = p := h1
        rw [if_pos rfl, if_neg hqp, if_pos rfl]
      · rw [if_neg h2, ih, if_neg h2]

theorem gsGet_not_contains :
    ∀ (g : GlobalState) (p : String), gsContains g p = false →
      gsGet g p = initRotationState := by
  intro g
  induction g with
  | nil => intro p _; rfl
  | cons e rest ih =>
    obtain ⟨p1, s1⟩ := e
    intro p h
    simp only [gsContains, Bool.or_eq_false_iff] at h
    obtain ⟨h1, h2⟩ := h
    rw [decide_eq_false_iff_not] at h1
    simp only [gsGet, if_neg h1]
    exact ih p h2

theorem gsGet_reset_failed (g : GlobalState) (p q : String) :
    gsGet (reset_failed_keys (some p) g) q =
      if q = p then { gsGet g p with failed_keys := [] } else gsGet g q := by
  simp only [reset_failed_keys]
  by_cases hc : gsContains g p
  · rw [if_pos hc, gsGet_gsSet]
  · rw [if_neg hc]
    by_cases hq : q = p
    · subst hq
      rw [if_pos rfl, gsGet_not_contains g q (by simpa using hc)]
      rfl
    · rw [if_neg hq]

theorem getApiKeyG_reset_failed (cooldown now : Int) (p : String) (env : Env)
    (g : GlobalState) :
    (getApiKeyG cooldown now p env (reset_failed_keys (some p) g)).1 =
      (getApiKeyG cooldown now p env
        (gsSet g p { gsGet g p with failed_keys := [] })).1 := by
  simp only [getApiKeyG]
  have h1 : gsGet (reset_failed_keys (some p) g) p =
      { gsGet g p with failed_keys := [] } := by
    rw [gsGet_reset_failed, if_pos rfl]
  have h2 : gsGet (gsSet g p { gsGet g p with failed_keys := [] }) p =
      { gsGet g p with failed_keys := [] } := by
    rw [gsGet_gsSet, if_pos rfl]
  rw [h1, h2]
  split <;> rfl

theorem mkTracker_reset_failed (p : String) (m : Nat) (env : Env) (g : GlobalState) :
    mkTracker p m env (reset_failed_keys (some p) g) = mkTracker p m env g := by
  unfold mkTracker
  rw [gsGet_reset_failed, if_pos rfl]

/-- **C9.** `reset_failed_keys(p)` followed by any query yields the same
result as if no failure had ever been recorded for `p`: the reset leaves `p`'s
state identical except for an emptied `failed_keys` map, failures never touch
`last_used_index` (so a state with `failed_keys` emptied *is* the state of a
history without failure recordings), and each query — `get_api_key`,
`get_next_key` on a fresh tracker, `all_keys_in_cooldown`,
`get_available_keys` — computes the same answer on the reset store as on the
store with `p`'s failure map empty.  `reset_rotation_state()` restores the
store to its process-start value (every provider back to
`last_used_index = -1` and no failures).  Both resets are total functions of
the embedding, so neither can raise. -/
theorem C9_reset_round_trip :
    (∀ (g : GlobalState) (p q : String),
      gsGet (reset_failed_keys (some p) g) q =
        if q = p then { gsGet g p with failed_keys := [] } else gsGet g q) ∧
    (∀ (p k : String) (now : Int) (g : GlobalState) (q : String),
      (gsGet (markKeyFailedG p k now g) q).last_used_index =
        (gsGet g q).last_used_index) ∧
    (∀ g : GlobalState, reset_rotation_state none g = initGlobalState) ∧
    (∀ q : String, gsGet initGlobalState q = initRotationState ∧
      (gsGet initGlobalState q).last_used_index = -1) ∧
    (∀ (cooldown now : Int) (p : String) (env : Env) (g : GlobalState),
      (getApiKeyG cooldown now p env (reset_failed_keys (some p) g)).1 =
        (getApiKeyG cooldown now p env
          (gsSet g p { gsGet g p with failed_keys := [] })).1) ∧
    (∀ (cooldown now : Int) (p : String) (m : Nat) (env : Env) (g : GlobalState),
      (KeyCycleTracker.get_next_key cooldown now
          (mkTracker p m env (reset_failed_keys (some p) g))
          (gsGet (reset_failed_keys (some p) g) p)).1 =
        (KeyCycleTracker.get_next_key cooldown now (mkTracker p m env g)
          { gsGet g p with failed_keys := [] }).1) ∧
    (∀ (cooldown now : Int) (p : String) (m : Nat) (env : Env) (g : GlobalState),
      KeyCycleTracker.all_keys_in_cooldown cooldown now
          (mkTracker p m env (reset_failed_keys (some p) g))
          (gsGet (reset_failed_keys (some p) g) p) =
        KeyCycleTracker.all_keys_in_cooldown cooldown now (mkTracker p m env g)
          { gsGet g p with failed_keys := [] }) ∧
    (∀ (p : String) (env : Env) (g : GlobalState),
      get_available_keys p env (reset_failed_keys (some p) g) =
        get_available_keys p env g) := by
  refine ⟨gsGet_reset_failed, ?_, fun g => rfl, fun q => ⟨rfl, rfl⟩,
    getApiKeyG_reset_failed, ?_, ?_, fun p env g => rfl⟩
  · intro p k now g q
    unfold markKeyFailedG
    rw [gsGet_gsSet]
    by_cases hq : q = p
    · rw [if_pos hq]
      subst hq
      rfl
    · rw [if_neg hq]
  · intro cooldown now p m env g
    rw [mkTracker_reset_failed]
    have h1 : gsGet (reset_failed_keys (some p) g) p =
        { gsGet g p with failed_keys := [] } := by
      rw [gsGet_reset_failed, if_pos rfl]
    rw [h1]
  · intro cooldown now p m env g
    rw [mkTracker_reset_failed]
    have h1 : gsGet (reset_failed_keys (some p) g) p =
        { gsGet g p with failed_keys := [] } := by
      rw [gsGet_reset_failed, if_pos rfl]
    rw [h1]

/-- **C10.** For every provider and every failure state,
`get_available_keys(provider)` and `get_all_keys(provider)` both return
exactly `parse_provider_keys(provider)`: marking keys as failed never changes
the output of either function, because cooldown filtering happens only inside
`get_api_key` and `KeyCycleTracker.get_next_key`. -/
theorem C10_unfiltered_accessors :
    (∀ (p : String) (env : Env) (g : GlobalState),
      get_available_keys p env g = parse_provider_keys p env) ∧
    (∀ (p : String) (env : Env) (g : GlobalState),
      get_all_keys p env g = parse_provider_keys p env) ∧
    (∀ (p k : String) (now : Int) (env : Env) (g : GlobalState),
      get_available_keys p env (markKeyFailedG p k now g) =
          get_available_keys p env g ∧
        get_all_keys p env (markKeyFailedG p k now g) = get_all_keys p env g) :=
  ⟨fun _ _ _ => rfl, fun _ _ _ => rfl, fun _ _ _ _ _ => ⟨rfl, rfl⟩⟩
